import Mathlib

/-!
# Job Application Optimizer: wizard state machine and analysis orchestrator

A shallow embedding of the React front end under `src/frontend/src`:

* `App.js`: the four pieces of wizard state and the handlers `handleNext`,
  `handleBack`, `handleReset`, and `getStepContent`;
* `components/UploadResume.js`, `components/JobDetails.js`: the guarded
  `handleNext` handlers and the upload callback `onDrop`;
* `components/Analysis.js`: `performAnalysis`, written as a function that
  returns the ordered list of effects the JavaScript body performs;
* `components/Results.js`: the fallback test and the handlers
  `handleGenerateDocuments` and `handleDownload`, by explicit state passing;
* all components together: `uiStep`, the application event by event, with the
  local state of the rendered component, the requests in flight and the
  scheduled callbacks, and `History`, which observes a walk through it.

React state setters are modelled by explicit state passing; an `await` on a
gateway call is modelled by asking a `Gateway` function for the outcome of the
call and recording both the call and its settlement in the effect list.
-/

namespace Wizard

/-! ## JavaScript values -/

/-- A JavaScript value as it arrives from a JSON response, plus `undefined`.
Numbers are kept as integers: the code under study only tests them for
truthiness, and a number is falsy exactly when it is zero. -/
inductive JsVal where
  | undefined
  | null
  | bool (b : Bool)
  | num (n : Int)
  | str (s : String)
  | arr (items : List JsVal)
  | obj (fields : List (String × JsVal))

namespace JsVal

/-- JavaScript truthiness (`!!v`): `undefined`, `null`, `false`, `0` and the
empty string are falsy, every other value (all arrays and objects) is truthy. -/
def truthy : JsVal → Bool
  | undefined => false
  | null => false
  | bool b => b
  | num n => n != 0
  | str s => s != ""
  | arr _ => true
  | obj _ => true

/-- Own-property lookup in an object literal. -/
def lookup (k : String) : List (String × JsVal) → JsVal
  | [] => undefined
  | (k', v) :: rest => if k' = k then v else lookup k rest

/-- Optional chaining `v?.k`: `undefined` when `v` is `null` or `undefined`,
the property when `v` is an object that has it, `undefined` otherwise (the
primitive wrappers and arrays have no property of the names used here). -/
def optGet (v : JsVal) (k : String) : JsVal :=
  match v with
  | obj fields => lookup k fields
  | _ => undefined

/-- The JavaScript operator `a || b`. -/
def orElse (a b : JsVal) : JsVal :=
  if a.truthy then a else b

mutual

/-- Whether React accepts the value as a child in JSX (`{v}`). Strings and
numbers are rendered as text; `undefined`, `null` and booleans render
nothing; an array is rendered item by item, nested arrays included. A plain
object, which is what a JSON object of a response is, is rejected: the render
throws "Objects are not valid as a React child". -/
def renderable : JsVal → Bool
  | obj _ => false
  | arr items => renderableList items
  | _ => true

/-- Every item of a list of children is accepted by React. -/
def renderableList : List JsVal → Bool
  | [] => true
  | item :: rest => renderable item && renderableList rest

end

end JsVal

/-! ## Session data (`App.js`, lines 34-37) -/

/-- The object stored by `setResumeData` in `UploadResume.onDrop`. -/
structure ResumeData where
  file : JsVal
  text : JsVal
  filename : JsVal

/-- The `formData` object of `JobDetails`, stored by `setJobData`. Its three
fields hold the values of text inputs, hence strings. -/
structure FormData where
  jobRole : String
  companyName : String
  jobDescription : String

/-- The `results` object built in `performAnalysis` (lines 64-69). -/
structure AnalysisResults where
  resumeAnalysis : JsVal
  atsScore : JsVal
  companyResearch : JsVal
  recommendations : JsVal

/-- The four `useState` cells of `App`. -/
structure App where
  activeStep : Int
  resumeData : Option ResumeData
  jobData : Option FormData
  analysisResults : Option AnalysisResults

/-- Initial values of the four `useState` cells. -/
def App.init : App :=
  { activeStep := 0, resumeData := none, jobData := none, analysisResults := none }

/-- `App.handleNext`: `setActiveStep(prev => prev + 1)`. -/
def App.handleNext (s : App) : App :=
  { s with activeStep := s.activeStep + 1 }

/-- `App.handleBack`: `setActiveStep(prev => prev - 1)`. -/
def App.handleBack (s : App) : App :=
  { s with activeStep := s.activeStep - 1 }

/-- `App.handleReset`: the four setters called with `0`, `null`, `null`, `null`. -/
def App.handleReset (s : App) : App :=
  { s with activeStep := 0, resumeData := none, jobData := none, analysisResults := none }

/-- The component returned by `getStepContent`. -/
inductive Stage where
  | upload
  | jobDetails
  | analysis
  | results
  | unknownStep
  deriving DecidableEq, Repr

/-- `App.getStepContent`: the `switch (step)` of lines 54-96. -/
def getStepContent (step : Int) : Stage :=
  if step = 0 then Stage.upload
  else if step = 1 then Stage.jobDetails
  else if step = 2 then Stage.analysis
  else if step = 3 then Stage.results
  else Stage.unknownStep

/-! ## The service gateway (`services/api.js`) as seen by `performAnalysis` -/

/-- The value caught by `catch (err)`: an `Error` object whose `response`
property is present for an HTTP error answered by the server and `undefined`
for a network error or a `TypeError`. -/
structure JsError where
  response : JsVal

/-- One call of a gateway operation together with its arguments. -/
inductive Request where
  | analyzeResume (resumeText : JsVal) (jobRole jobDescription : String)
  | checkATS (resumeText : JsVal) (jobDescription : String)
  | researchCompany (companyName : String)
  | generateRecommendations (job_role company_name : String)
      (analysis ats_score company_research : JsVal)

/-- The behaviour of the network during one run: every call either resolves
with `response.data` or rejects with an error. -/
abbrev Gateway := Request → Except JsError JsVal

/-! ## `Analysis.performAnalysis` (lines 22-81) -/

/-- What `performAnalysis` does to the outside, in program order. -/
inductive Effect where
  | setError (e : JsVal)
  | setCurrentStep (label : String)
  | setProgress (n : Nat)
  | call (req : Request)
  | resolved (response : JsVal)
  | rejected (err : JsError)
  | consoleLog (msg : String)
  | setAnalysisResults (r : AnalysisResults)
  | setTimeout (delayMs : Nat)

/-- A computation that performs effects in order and either completes with a
value or throws. -/
structure Run (α : Type) where
  trace : List Effect
  result : Except JsError α

namespace Run

/-- Sequencing: the second computation runs only if the first did not throw. -/
def andThen {α β : Type} (m : Run α) (f : α → Run β) : Run β :=
  match m.result with
  | Except.ok a => { trace := m.trace ++ (f a).trace, result := (f a).result }
  | Except.error e => { trace := m.trace, result := Except.error e }

instance : Monad Run where
  pure a := { trace := [], result := Except.ok a }
  bind := andThen

/-- Perform one effect. -/
def emit (e : Effect) : Run Unit :=
  { trace := [e], result := Except.ok () }

/-- Member access `x.f` on a value that may be `null`: a `TypeError`, which
carries no `response`, when it is. -/
def deref {α : Type} : Option α → Run α
  | some a => { trace := [], result := Except.ok a }
  | none => { trace := [], result := Except.error { response := JsVal.undefined } }

/-- The expression `await service(args)`: the call is issued, and the
computation continues with the response only once the call has resolved; a
rejection is thrown at the `await`. -/
def await (gw : Gateway) (req : Request) : Run JsVal :=
  match gw req with
  | Except.ok r => { trace := [Effect.call req, Effect.resolved r], result := Except.ok r }
  | Except.error e => { trace := [Effect.call req, Effect.rejected e], result := Except.error e }

/-- The statement `try body catch (err) handler`. -/
def tryCatch (body : Run Unit) (handler : JsError → Run Unit) : Run Unit :=
  match body.result with
  | Except.ok _ => body
  | Except.error e =>
      { trace := body.trace ++ (handler e).trace, result := (handler e).result }

end Run

/-- The fallback message of line 79. -/
def genericError : JsVal :=
  JsVal.str "Analysis failed. Please try again."

/-- The expression `err.response?.data?.detail` of line 79. -/
def errorDetail (err : JsError) : JsVal :=
  (err.response.optGet "data").optGet "detail"

/-- The argument of `setError` in the `catch` block (line 79):
`err.response?.data?.detail || 'Analysis failed. Please try again.'`. -/
def errorMessage (err : JsError) : JsVal :=
  JsVal.orElse (errorDetail err) genericError

open Run in
/-- The body of `performAnalysis`, statement by statement. -/
def performAnalysisRun (gw : Gateway) (resumeData : Option ResumeData)
    (jobData : Option FormData) : Run Unit := do
  emit (Effect.setError JsVal.null)
  tryCatch
    (do
      -- Step 1: Analyze Resume
      emit (Effect.setCurrentStep "Analyzing your resume...")
      emit (Effect.setProgress 25)
      let resumeAnalysis ← await gw (Request.analyzeResume
        (← deref resumeData).text (← deref jobData).jobRole (← deref jobData).jobDescription)
      -- Step 2: Check ATS Compatibility
      emit (Effect.setCurrentStep "Checking ATS compatibility...")
      emit (Effect.setProgress 50)
      let atsScore ← await gw (Request.checkATS
        (← deref resumeData).text (← deref jobData).jobDescription)
      -- Step 3: Research Company
      emit (Effect.setCurrentStep "Researching company information...")
      emit (Effect.setProgress 75)
      let companyResearch ← await gw (Request.researchCompany (← deref jobData).companyName)
      -- Step 4: Generate Recommendations
      emit (Effect.setCurrentStep "Generating personalized recommendations...")
      emit (Effect.setProgress 90)
      let recommendations ← await gw (Request.generateRecommendations
        (← deref jobData).jobRole (← deref jobData).companyName
        resumeAnalysis atsScore companyResearch)
      emit (Effect.setProgress 100)
      emit (Effect.setCurrentStep "Analysis complete!")
      let results : AnalysisResults :=
        { resumeAnalysis := resumeAnalysis, atsScore := atsScore,
          companyResearch := companyResearch, recommendations := recommendations }
      emit (Effect.consoleLog "Analysis complete - Setting results:")
      emit (Effect.setAnalysisResults results)
      emit (Effect.setTimeout 1000))
    (fun err => emit (Effect.setError (errorMessage err)))

/-- The effects of one invocation of `performAnalysis`, in order. -/
def performAnalysis (gw : Gateway) (resumeData : Option ResumeData)
    (jobData : Option FormData) : List Effect :=
  (performAnalysisRun gw resumeData jobData).trace

/-! ## The Analysis component around `performAnalysis` -/

/-- The three `useState` cells of `Analysis` (lines 13-15). -/
structure AnalysisLocal where
  error : JsVal
  progress : Nat
  currentStep : String

/-- Initial values of the cells of a freshly mounted `Analysis`. -/
def AnalysisLocal.init : AnalysisLocal :=
  { error := JsVal.null, progress := 0, currentStep := "" }

/-- Everything a run of `performAnalysis` can write to: the session held by
`App`, the cells of `Analysis`, and the number of `setTimeout` callbacks
(each of them `onNext()`) that are scheduled and have not fired yet. -/
structure AnalysisView where
  app : App
  loc : AnalysisLocal
  timers : Nat

/-- The state change made by one effect. Gateway traffic and logging change
nothing; `setAnalysisResults` is the setter of `App` passed as a prop. -/
def applyEffect (v : AnalysisView) : Effect → AnalysisView
  | Effect.setError e => { v with loc := { v.loc with error := e } }
  | Effect.setCurrentStep label => { v with loc := { v.loc with currentStep := label } }
  | Effect.setProgress n => { v with loc := { v.loc with progress := n } }
  | Effect.setAnalysisResults r => { v with app := { v.app with analysisResults := some r } }
  | Effect.setTimeout _ => { v with timers := v.timers + 1 }
  | Effect.call _ => v
  | Effect.resolved _ => v
  | Effect.rejected _ => v
  | Effect.consoleLog _ => v

/-- One complete run of `performAnalysis` with the props `resumeData` and
`jobData` of the rendered component, under the network behaviour `gw`. -/
def runAnalysis (gw : Gateway) (v : AnalysisView) : AnalysisView :=
  (performAnalysis gw v.app.resumeData v.app.jobData).foldl applyEffect v

/-- The `Retry` button: `onClick={performAnalysis}` (line 99). -/
def retry (gw : Gateway) (v : AnalysisView) : AnalysisView :=
  runAnalysis gw v

/-- Whether the error branch of the render (lines 92-103), which holds the
`Back` and `Retry` buttons, is on screen. The branch is chosen when `error`
is truthy (line 92) and it renders `{error}` as a child of the `Alert`
(line 95). When the stored value is not a valid React child, an object or an
array with an object in it, that render throws; neither `Analysis.js` nor
`App.js` has an error boundary, so React unmounts the tree and no button is
left. -/
def retryShown (v : AnalysisView) : Bool :=
  v.loc.error.truthy && v.loc.error.renderable

/-- The delay of a scheduled callback elapses: the callback calls `onNext`,
which is `App.handleNext`. Nothing in `Analysis` ever clears a timer. -/
def elapse (v : AnalysisView) : AnalysisView :=
  if 0 < v.timers then { v with app := App.handleNext v.app, timers := v.timers - 1 } else v

/-! ## Projections of an effect list -/

/-- The arguments of the `setProgress` calls, in order. -/
def progressValues : List Effect → List Nat
  | [] => []
  | Effect.setProgress n :: rest => n :: progressValues rest
  | _ :: rest => progressValues rest

/-- The gateway calls issued, in order. -/
def callsIssued : List Effect → List Request
  | [] => []
  | Effect.call req :: rest => req :: callsIssued rest
  | _ :: rest => callsIssued rest

/-- The arguments of the `setAnalysisResults` calls, in order. -/
def resultsWritten : List Effect → List AnalysisResults
  | [] => []
  | Effect.setAnalysisResults r :: rest => r :: resultsWritten rest
  | _ :: rest => resultsWritten rest

/-- The delays of the `setTimeout` calls, in order. -/
def timersScheduled : List Effect → List Nat
  | [] => []
  | Effect.setTimeout d :: rest => d :: timersScheduled rest
  | _ :: rest => timersScheduled rest

/-- The arguments of the `setError` calls, in order. -/
def errorsSet : List Effect → List JsVal
  | [] => []
  | Effect.setError e :: rest => e :: errorsSet rest
  | _ :: rest => errorsSet rest

/-- The progress checkpoints and gateway traffic of a run, in order: what a
progress bar and the network see. -/
def observable : List Effect → List Effect
  | [] => []
  | Effect.setProgress n :: rest => Effect.setProgress n :: observable rest
  | Effect.call req :: rest => Effect.call req :: observable rest
  | Effect.resolved r :: rest => Effect.resolved r :: observable rest
  | Effect.rejected e :: rest => Effect.rejected e :: observable rest
  | _ :: rest => observable rest

/-- The progress checkpoints and the gateway calls of a run, in order. -/
def progressAndCalls : List Effect → List Effect
  | [] => []
  | Effect.setProgress n :: rest => Effect.setProgress n :: progressAndCalls rest
  | Effect.call req :: rest => Effect.call req :: progressAndCalls rest
  | _ :: rest => progressAndCalls rest

/-- The first gateway call of a run that is rejected, numbered from 1, with
the error it is rejected with; `none` when all four calls resolve. The
requests are those a run with props `rd` and `jd` issues. -/
def firstFailure (gw : Gateway) (rd : ResumeData) (jd : FormData) : Option (Nat × JsError) :=
  match gw (Request.analyzeResume rd.text jd.jobRole jd.jobDescription) with
  | Except.error e => some (1, e)
  | Except.ok r1 =>
    match gw (Request.checkATS rd.text jd.jobDescription) with
    | Except.error e => some (2, e)
    | Except.ok r2 =>
      match gw (Request.researchCompany jd.companyName) with
      | Except.error e => some (3, e)
      | Except.ok r3 =>
        match gw (Request.generateRecommendations jd.jobRole jd.companyName r1 r2 r3) with
        | Except.error e => some (4, e)
        | Except.ok _ => none

/-- The progress checkpoint set before the call of step `k`. -/
def checkpoint (k : Nat) : Nat :=
  if k = 1 then 25 else if k = 2 then 50 else if k = 3 then 75 else 90

/-- The label set before the call of step `k`. -/
def stepLabel (k : Nat) : String :=
  if k = 1 then "Analyzing your resume..."
  else if k = 2 then "Checking ATS compatibility..."
  else if k = 3 then "Researching company information..."
  else "Generating personalized recommendations..."

/-! ## The stage handlers of `UploadResume` and `JobDetails` -/

/-- `UploadResume.handleNext` (lines 50-54): `if (resumeData) onNext()`. -/
def UploadResume.handleNext (s : App) : App :=
  if s.resumeData.isSome then App.handleNext s else s

/-- The `try` block of `UploadResume.onDrop` once the upload has resolved with
`result` (lines 28-33): `setResumeData` with the dropped file and two fields
of the response. Reading a field of a `null` or `undefined` response throws and
leaves the session as it was. -/
def UploadResume.onDropResolved (file result : JsVal) (s : App) : App :=
  match result with
  | JsVal.undefined => s
  | JsVal.null => s
  | _ =>
      let resumeData : ResumeData :=
        { file := file, text := result.optGet "resume_text",
          filename := result.optGet "filename" }
      { s with resumeData := some resumeData }

/-- `JobDetails.handleNext` (lines 24-29) with the current `formData`:
`if (formData.jobRole && formData.companyName)` then `setJobData(formData)` and
`onNext()`. A string is truthy exactly when it is not empty. -/
def JobDetails.handleNext (formData : FormData) (s : App) : App :=
  if formData.jobRole ≠ "" ∧ formData.companyName ≠ "" then
    App.handleNext { s with jobData := some formData }
  else s

/-- A run of the analysis followed by its delayed `onNext`: the run of
`performAnalysis` on the session, then the callback it scheduled fires. A run
that fails schedules none and leaves the session as it was. -/
def Analysis.runThenAdvance (gw : Gateway) (s : App) : App :=
  (elapse (runAnalysis gw { app := s, loc := AnalysisLocal.init, timers := 0 })).app

/-! ## The wizard as a step relation over the session -/

/-- The steps of the wizard: the stage handlers, a resolved upload, and a run
of the analysis together with the delayed `onNext` it schedules. -/
inductive WizardEvent where
  | uploadResolved (file result : JsVal)
  | uploadNext
  | jobNext (formData : FormData)
  | back
  | reset
  | analysisRun (gw : Gateway)

/-- One step. A handler of a stage component acts only while `getStepContent`
renders that component; `handleBack` and `handleReset` belong to `App` and are
not restricted here, nor is the arrival of an upload response. -/
def wizardStep (s : App) : WizardEvent → App
  | WizardEvent.uploadResolved file result => UploadResume.onDropResolved file result s
  | WizardEvent.uploadNext =>
      if getStepContent s.activeStep = Stage.upload then UploadResume.handleNext s else s
  | WizardEvent.jobNext formData =>
      if getStepContent s.activeStep = Stage.jobDetails then JobDetails.handleNext formData s
      else s
  | WizardEvent.back => App.handleBack s
  | WizardEvent.reset => App.handleReset s
  | WizardEvent.analysisRun gw =>
      if getStepContent s.activeStep = Stage.analysis then Analysis.runThenAdvance gw s else s

/-- The state reached from the initial state by a sequence of steps. -/
def wizardRun (events : List WizardEvent) : App :=
  events.foldl wizardStep App.init

/-- The `jobData` of a session is present with non-empty `jobRole` and
non-empty `companyName`. -/
def jobDataComplete (s : App) : Prop :=
  ∃ jd, s.jobData = some jd ∧ jd.jobRole ≠ "" ∧ jd.companyName ≠ ""

/-! ## Concrete inputs -/

/-- A stored upload: extracted text and the file name `r.pdf`. -/
def sampleResume : ResumeData :=
  { file := JsVal.obj [("name", JsVal.str "r.pdf")], text := JsVal.str "...",
    filename := JsVal.str "r.pdf" }

/-- Job details with the optional description left empty. -/
def sampleJob : FormData :=
  { jobRole := "Senior Engineer", companyName := "Acme", jobDescription := "" }

/-- A network on which every call resolves with a canned response. -/
def cannedGateway : Gateway
  | Request.analyzeResume _ _ _ => Except.ok (JsVal.obj [("overall_score", JsVal.num 7)])
  | Request.checkATS _ _ => Except.ok (JsVal.obj [("ats_score", JsVal.num 80)])
  | Request.researchCompany _ => Except.ok (JsVal.obj [("culture", JsVal.str "open")])
  | Request.generateRecommendations _ _ _ _ _ =>
      Except.ok (JsVal.obj [("interview_questions", JsVal.arr [])])

/-- An HTTP error whose body carries `detail`. -/
def httpError (detail : JsVal) : JsError :=
  { response := JsVal.obj [("status", JsVal.num 500),
      ("data", JsVal.obj [("detail", detail)])] }

/-- A network on which company research is rejected and the other calls
resolve as on `cannedGateway`. -/
def researchDown : Gateway
  | Request.researchCompany _ => Except.error (httpError (JsVal.str "Company lookup failed"))
  | req => cannedGateway req

/-- The body of a validation error as a JSON API answers it: `detail` is an
array of objects, one per offending field. -/
def validationDetail : JsVal :=
  JsVal.arr [JsVal.obj [("loc", JsVal.arr [JsVal.str "body", JsVal.str "resume_text"]),
    ("msg", JsVal.str "field required"), ("type", JsVal.str "value_error.missing")]]

/-- A network on which the first call, `analyzeResume`, is rejected with a
validation error and the other calls resolve as on `cannedGateway`. -/
def validationDown : Gateway
  | Request.analyzeResume _ _ _ => Except.error (httpError validationDetail)
  | req => cannedGateway req

/-- A session on the Analysis stage with resume and job details present. -/
def sampleSession : App :=
  { activeStep := 2, resumeData := some sampleResume, jobData := some sampleJob,
    analysisResults := none }

/-- The freshly mounted `Analysis` on `sampleSession`, no timer pending. -/
def sampleView : AnalysisView :=
  { app := sampleSession, loc := AnalysisLocal.init, timers := 0 }

/-- The guards of the stages as one predicate on sessions. -/
def stageGuards (s : App) : Prop :=
  (1 ≤ s.activeStep → s.resumeData.isSome = true) ∧ (2 ≤ s.activeStep → jobDataComplete s)

/-- A sequence of steps that walks the wizard from Upload to Results. -/
def sampleWalk : List WizardEvent :=
  [WizardEvent.uploadResolved (JsVal.obj [("name", JsVal.str "r.pdf")])
     (JsVal.obj [("resume_text", JsVal.str "..."), ("filename", JsVal.str "r.pdf")]),
   WizardEvent.uploadNext,
   WizardEvent.jobNext sampleJob,
   WizardEvent.analysisRun cannedGateway]

/-! ## The Analysis stage with its pending delayed transition -/

/-- The Analysis stage: what a run can write to, and whether the component is
still mounted. -/
structure AnalysisStage where
  view : AnalysisView
  mounted : Bool

/-- The events of the Analysis stage. -/
inductive AnalysisEvent where
  | run (gw : Gateway)
  | teardown
  | delayElapsed

/-- One step of the Analysis stage. A run (the mount effect of lines 17-20 or
`Retry`) needs the mounted component. Teardown unmounts it: the effect of
lines 17-20 returns no cleanup and no `clearTimeout` exists in the component,
so the scheduled callbacks are left as they are. When the delay elapses the
callback of lines 74-77 runs, mounted or not. -/
def analysisStep (st : AnalysisStage) : AnalysisEvent → AnalysisStage
  | AnalysisEvent.run gw => if st.mounted then { st with view := runAnalysis gw st.view } else st
  | AnalysisEvent.teardown => { st with mounted := false }
  | AnalysisEvent.delayElapsed => { st with view := elapse st.view }

/-- The mounted Analysis stage on `sampleSession`. -/
def sampleStage : AnalysisStage :=
  { view := sampleView, mounted := true }

/-! ## The whole wizard, event by event

The session of `App` together with the local state of the component that
`getStepContent` renders, the uploads and analysis runs that are in flight, and
the scheduled `onNext` callbacks. An event is a user action on a control that
is rendered and enabled, the settlement of a request in flight, or the
elapsing of a delay. -/

/-- The three `useState` cells of `UploadResume` (lines 16-18). -/
structure UploadLocal where
  file : JsVal
  loading : Bool
  error : JsVal

/-- The rendered component with its local state. -/
inductive Mounted where
  | upload (loc : UploadLocal)
  | jobDetails (formData : FormData)
  | analysis (loc : AnalysisLocal)
  | results
  | unknownStep

/-- An upload in flight: the component instance whose `onDrop` started it and
the dropped file. -/
structure PendingUpload where
  owner : Nat
  file : JsVal

/-- An analysis run in flight: the component instance that started it and the
props `resumeData` and `jobData` its closure reads. -/
structure PendingRun where
  owner : Nat
  resumeData : Option ResumeData
  jobData : Option FormData

/-- The state of the running application. `mountId` numbers the mounted
components: it grows by one at every mount. -/
structure Session where
  app : App
  view : Mounted
  mountId : Nat
  uploads : List PendingUpload
  runs : List PendingRun
  timers : Nat

/-- The fields of the `JobDetails` form. -/
inductive JobField where
  | jobRole
  | companyName
  | jobDescription

/-- `JobDetails.handleChange` (lines 17-22): one field of `formData` replaced. -/
def JobDetails.handleChange (formData : FormData) (field : JobField) (value : String) :
    FormData :=
  match field with
  | JobField.jobRole => { formData with jobRole := value }
  | JobField.companyName => { formData with companyName := value }
  | JobField.jobDescription => { formData with jobDescription := value }

/-- The events of the running application. -/
inductive UiEvent where
  | drop (file : JsVal)
  | uploadSettled (i : Nat) (outcome : Except JsError JsVal)
  | uploadNext
  | jobChange (field : JobField) (value : String)
  | jobNext
  | jobBack
  | analysisSettled (i : Nat) (gw : Gateway)
  | analysisRetry
  | analysisBack
  | delayElapsed
  | resultsBack
  | resultsReset

/-- Whether an effect is the issuing of a gateway call. -/
def Effect.isCall : Effect → Bool
  | Effect.call _ => true
  | _ => false

/-- A network on which every call is rejected without a response. -/
def offline : Gateway :=
  fun _ => Except.error { response := JsVal.undefined }

/-- The effects of `performAnalysis` up to its first `await`: they happen at
once when the function is called and do not depend on the network. -/
def effectsBeforeAwait (resumeData : Option ResumeData) (jobData : Option FormData) :
    List Effect :=
  (performAnalysis offline resumeData jobData).takeWhile (fun e => !e.isCall)

/-- The effects of `performAnalysis` from its first gateway call on: they
happen when the network has answered. -/
def effectsFromAwait (gw : Gateway) (resumeData : Option ResumeData)
    (jobData : Option FormData) : List Effect :=
  (performAnalysis gw resumeData jobData).dropWhile (fun e => !e.isCall)

/-- The effects of a run applied to the session. The setters of `App` and
`setTimeout` always act; the setters of the cells of `Analysis` act only on the
component instance `owner` that started the run, while it is mounted. -/
def Session.applyEffects (s : Session) (owner : Nat) (effects : List Effect) : Session :=
  match s.view with
  | Mounted.analysis loc =>
      let v := effects.foldl applyEffect { app := s.app, loc := loc, timers := s.timers }
      if owner = s.mountId then
        { s with app := v.app, view := Mounted.analysis v.loc, timers := v.timers }
      else { s with app := v.app, timers := v.timers }
  | _ =>
      let v := effects.foldl applyEffect
        { app := s.app, loc := AnalysisLocal.init, timers := s.timers }
      { s with app := v.app, timers := v.timers }

/-- A call of `performAnalysis` by the mounted `Analysis`: the effects before
the first `await` happen at once; if a gateway call follows, the run is in
flight, with the props of the current render in its closure. -/
def Session.startRun (s : Session) : Session :=
  let s1 := s.applyEffects s.mountId (effectsBeforeAwait s.app.resumeData s.app.jobData)
  if (performAnalysis offline s.app.resumeData s.app.jobData).any Effect.isCall then
    { s1 with runs := s1.runs ++
        [{ owner := s.mountId, resumeData := s.app.resumeData, jobData := s.app.jobData }] }
  else s1

/-- The component of the current `activeStep` is mounted with its initial
local state (`UploadResume` line 16, `JobDetails` lines 11-15, `Analysis`
lines 13-20 with the mount effect that calls `performAnalysis`). -/
def Session.mount (s : Session) : Session :=
  let s1 := { s with mountId := s.mountId + 1 }
  match getStepContent s.app.activeStep with
  | Stage.upload =>
      let file := match s.app.resumeData with
        | some rd => JsVal.orElse rd.file JsVal.null
        | none => JsVal.null
      { s1 with view := Mounted.upload { file := file, loading := false, error := JsVal.null } }
  | Stage.jobDetails =>
      let formData : FormData := match s.app.jobData with
        | some jd => jd
        | none => { jobRole := "", companyName := "", jobDescription := "" }
      { s1 with view := Mounted.jobDetails formData }
  | Stage.analysis =>
      Session.startRun { s1 with view := Mounted.analysis AnalysisLocal.init }
  | Stage.results => { s1 with view := Mounted.results }
  | Stage.unknownStep => { s1 with view := Mounted.unknownStep }

/-- A handler of `App` has run: when `activeStep` changed, the old component
is unmounted and the component of the new step is mounted. -/
def Session.navigate (s : Session) (app : App) : Session :=
  if app.activeStep = s.app.activeStep then { s with app := app }
  else Session.mount { s with app := app }

/-- The application at start: the initial session with `UploadResume` mounted. -/
def Session.init : Session :=
  { app := App.init,
    view := Mounted.upload { file := JsVal.null, loading := false, error := JsVal.null },
    mountId := 0, uploads := [], runs := [], timers := 0 }

/-- One event of the running application. An event whose control is not
rendered or is disabled, or whose request is not in flight, changes nothing. -/
def uiStep (s : Session) : UiEvent → Session
  | UiEvent.drop file =>
      -- `onDrop` (lines 20-26): `if (uploadedFile)`, three setters, then the upload starts
      match s.view with
      | Mounted.upload _ =>
          if file.truthy then
            { s with view := Mounted.upload { file := file, loading := true, error := JsVal.null },
                     uploads := s.uploads ++ [{ owner := s.mountId, file := file }] }
          else s
      | _ => s
  | UiEvent.uploadSettled i outcome =>
      -- `onDrop` (lines 28-38): the `await` of the i-th upload in flight settles
      match s.uploads[i]? with
      | none => s
      | some up =>
          let s1 := { s with uploads := s.uploads.eraseIdx i }
          let stored : Bool := match outcome with
            | Except.ok JsVal.undefined => false
            | Except.ok JsVal.null => false
            | Except.ok _ => true
            | Except.error _ => false
          let app : App := match outcome with
            | Except.ok result => UploadResume.onDropResolved up.file result s1.app
            | Except.error _ => s1.app
          let view : Mounted := match s1.view with
            | Mounted.upload loc =>
                if up.owner = s1.mountId then
                  if stored then Mounted.upload { loc with loading := false }
                  else Mounted.upload { loc with
                    error := JsVal.str "Failed to upload resume. Please try again.",
                    loading := false }
                else Mounted.upload loc
            | other => other
          { s1 with app := app, view := view }
  | UiEvent.uploadNext =>
      -- the `Next` button (lines 118-125), `disabled={!resumeData || loading}`
      match s.view with
      | Mounted.upload loc =>
          if s.app.resumeData.isSome ∧ loc.loading = false then
            s.navigate (UploadResume.handleNext s.app)
          else s
      | _ => s
  | UiEvent.jobChange field value =>
      match s.view with
      | Mounted.jobDetails formData =>
          { s with view := Mounted.jobDetails (JobDetails.handleChange formData field value) }
      | _ => s
  | UiEvent.jobNext =>
      -- the `Next` button (lines 86-93), disabled while a required field is empty
      match s.view with
      | Mounted.jobDetails formData =>
          if formData.jobRole ≠ "" ∧ formData.companyName ≠ "" then
            s.navigate (JobDetails.handleNext formData s.app)
          else s
      | _ => s
  | UiEvent.jobBack =>
      match s.view with
      | Mounted.jobDetails _ => s.navigate (App.handleBack s.app)
      | _ => s
  | UiEvent.analysisSettled i gw =>
      -- the network answers the i-th run in flight as `gw` says
      match s.runs[i]? with
      | none => s
      | some run =>
          Session.applyEffects { s with runs := s.runs.eraseIdx i } run.owner
            (effectsFromAwait gw run.resumeData run.jobData)
  | UiEvent.analysisRetry =>
      -- the `Retry` button, rendered in the error branch only (lines 92-103)
      match s.view with
      | Mounted.analysis loc => if loc.error.truthy then s.startRun else s
      | _ => s
  | UiEvent.analysisBack =>
      -- the `Back` button, rendered in the error branch only (lines 92-103)
      match s.view with
      | Mounted.analysis loc =>
          if loc.error.truthy then s.navigate (App.handleBack s.app) else s
      | _ => s
  | UiEvent.delayElapsed =>
      -- the callback of lines 74-77
      if 0 < s.timers then
        Session.navigate { s with timers := s.timers - 1 } (App.handleNext s.app)
      else s
  | UiEvent.resultsBack =>
      -- `Back` (line 345) or `Go Back` of the fallback branch (line 42)
      match s.view with
      | Mounted.results => s.navigate (App.handleBack s.app)
      | _ => s
  | UiEvent.resultsReset =>
      -- `Start New Analysis` (lines 346-352), not rendered in the fallback branch
      match s.view with
      | Mounted.results =>
          if s.app.analysisResults.isSome then s.navigate (App.handleReset s.app) else s
      | _ => s

/-- The state reached from the start by a sequence of events. -/
def uiRun (events : List UiEvent) : Session :=
  events.foldl uiStep Session.init

/-- A network that answers every call with a response naming what it was
asked about, so that a stored result shows which inputs the run read. -/
def echoGateway : Gateway
  | Request.analyzeResume resumeText _ _ => Except.ok (JsVal.obj [("analysis_of", resumeText)])
  | Request.checkATS resumeText _ => Except.ok (JsVal.obj [("ats_of", resumeText)])
  | Request.researchCompany companyName =>
      Except.ok (JsVal.obj [("research_of", JsVal.str companyName)])
  | Request.generateRecommendations job_role _ _ _ _ =>
      Except.ok (JsVal.obj [("recommended_for", JsVal.str job_role)])

/-- The file handle of a first dropped resume. -/
def fileA : JsVal := JsVal.obj [("name", JsVal.str "a.pdf")]

/-- The file handle of a second dropped resume. -/
def fileB : JsVal := JsVal.obj [("name", JsVal.str "b.pdf")]

/-- The upload response for `fileA`. -/
def responseA : JsVal :=
  JsVal.obj [("resume_text", JsVal.str "text of A"), ("filename", JsVal.str "a.pdf")]

/-- The upload response for `fileB`. -/
def responseB : JsVal :=
  JsVal.obj [("resume_text", JsVal.str "text of B"), ("filename", JsVal.str "b.pdf")]

/-- Two files are dropped one after the other; the first upload resolves and
re-enables `Next` while the second is still in flight; the user fills in the
job details and walks on to the Analysis stage; the second upload resolves
while the analysis run is in flight; the run succeeds and the wizard advances
to the Results stage. -/
def overlappingUploads : List UiEvent :=
  [UiEvent.drop fileA,
   UiEvent.drop fileB,
   UiEvent.uploadSettled 0 (Except.ok responseA),
   UiEvent.uploadNext,
   UiEvent.jobChange JobField.jobRole "Senior Engineer",
   UiEvent.jobChange JobField.companyName "Acme",
   UiEvent.jobNext,
   UiEvent.uploadSettled 0 (Except.ok responseB),
   UiEvent.analysisSettled 0 echoGateway,
   UiEvent.delayElapsed]

/-- What holds in every state the running application reaches: the guards of
the stages, the rendered component is the one of `activeStep`, and runs and
scheduled callbacks exist only under a mounted `Analysis`, where either one
run is in flight, or none is and nothing is scheduled, or the last run stored
a result and its one callback is pending. -/
def Session.Wf (s : Session) : Prop :=
  stageGuards s.app ∧
  match s.view with
  | Mounted.upload _ => s.app.activeStep = 0 ∧ s.runs = [] ∧ s.timers = 0
  | Mounted.jobDetails _ => s.app.activeStep = 1 ∧ s.runs = [] ∧ s.timers = 0
  | Mounted.analysis loc =>
      s.app.activeStep = 2 ∧
      ((∃ r, s.runs = [r] ∧ r.owner = s.mountId ∧ r.resumeData.isSome = true ∧
          r.jobData.isSome = true ∧ loc.error.truthy = false ∧ s.timers = 0) ∨
       (s.runs = [] ∧ s.timers = 0) ∨
       (s.runs = [] ∧ s.timers = 1 ∧ loc.error.truthy = false ∧
          s.app.analysisResults.isSome = true))
  | Mounted.results =>
      s.app.activeStep = 3 ∧ s.runs = [] ∧ s.timers = 0 ∧ s.app.analysisResults.isSome = true
  | Mounted.unknownStep => False

/-- The stored result is what a run on the session's current `resumeData` and
`jobData` stores when the network answers as `gw`. -/
def freshResults (gw : Gateway) (app : App) : Prop :=
  ∃ res, app.analysisResults = some res ∧
    resultsWritten (performAnalysis gw app.resumeData app.jobData) = [res]

/-- A sequence of events from state `s` in which no file is dropped while an
upload is in flight, and in which the network answers every analysis run as
`gw`. -/
def serialFrom (gw : Gateway) (s : Session) : List UiEvent → Prop
  | [] => True
  | ev :: rest =>
      (match ev with
        | UiEvent.drop _ => s.uploads = []
        | UiEvent.analysisSettled _ g => g = gw
        | _ => True) ∧
      serialFrom gw (uiStep s ev) rest

/-- What holds along a sequence of events without overlapping uploads: an
upload is in flight only under the `UploadResume` that started it, which shows
`loading`; a run in flight reads the session's current data; and a result whose
callback is pending, or that the Results stage shows, is fresh. -/
def Session.Fresh (gw : Gateway) (s : Session) : Prop :=
  (s.uploads = [] ∨
    ∃ u loc, s.uploads = [u] ∧ s.view = Mounted.upload loc ∧ loc.loading = true) ∧
  match s.view with
  | Mounted.analysis _ =>
      (∀ r ∈ s.runs, r.resumeData = s.app.resumeData ∧ r.jobData = s.app.jobData) ∧
      (s.timers = 1 → freshResults gw s.app)
  | Mounted.results => freshResults gw s.app
  | _ => True

/-- The walk of `overlappingUploads` with a single upload: the file is dropped
once and its upload has resolved before `Next` is clicked. -/
def singleUpload : List UiEvent :=
  [UiEvent.drop fileA,
   UiEvent.uploadSettled 0 (Except.ok responseA),
   UiEvent.uploadNext,
   UiEvent.jobChange JobField.jobRole "Senior Engineer",
   UiEvent.jobChange JobField.companyName "Acme",
   UiEvent.jobNext,
   UiEvent.analysisSettled 0 echoGateway,
   UiEvent.delayElapsed]

/-! ## The Results component (`components/Results.js`) -/

/-- The three `useState` cells of `Results` (lines 25-27). -/
structure ResultsLocal where
  generatingDocs : Bool
  documents : JsVal
  docError : JsVal

/-- Initial values of the cells of a freshly mounted `Results`. -/
def ResultsLocal.init : ResultsLocal :=
  { generatingDocs := false, documents := JsVal.null, docError := JsVal.null }

/-- One call of `documentService` together with its arguments. -/
inductive DocRequest where
  | generateDocuments (resume_text : JsVal) (job_role company_name : String)
      (analysis ats_score company_research recommendations : JsVal)
  | downloadDocument (filename : JsVal)

/-- The behaviour of the network for the calls of `documentService`. -/
abbrev DocGateway := DocRequest → Except JsError JsVal

/-- The props of `Results` that come from the session of `App`, and its cells. -/
structure ResultsView where
  app : App
  loc : ResultsLocal

/-- Whether `Results` returns its fallback, `if (!analysisResults)` (lines
33-45): the error alert with `Go Back` and nothing else. -/
def Results.showsFallback (analysisResults : Option AnalysisResults) : Bool :=
  analysisResults.isNone

/-- The message of line 71. -/
def docFailure : JsVal :=
  JsVal.str "Failed to generate documents. Please try again."

/-- `Results.handleGenerateDocuments` (lines 55-75), from the call to the end
of the `finally` block. The handler exists only past the fallback return, with
the four parts of `analysisResults` destructured (line 47). A rejection of the
call, or a `TypeError` while its argument is built, ends in the `catch`. -/
def Results.handleGenerateDocuments (gw : DocGateway) (v : ResultsView) : ResultsView :=
  match v.app.analysisResults with
  | none => v
  | some ar =>
      -- setGeneratingDocs(true); setDocError(null);
      let loc1 : ResultsLocal := { v.loc with generatingDocs := true }
      let loc2 : ResultsLocal := { loc1 with docError := JsVal.null }
      -- try / catch
      let loc3 : ResultsLocal :=
        match v.app.resumeData, v.app.jobData with
        | some rd, some jd =>
            match gw (DocRequest.generateDocuments rd.text jd.jobRole jd.companyName
                ar.resumeAnalysis ar.atsScore ar.companyResearch ar.recommendations) with
            | Except.ok result => { loc2 with documents := result }
            | Except.error _ => { loc2 with docError := docFailure }
        | _, _ => { loc2 with docError := docFailure }
      -- finally
      { v with loc := { loc3 with generatingDocs := false } }

/-- `Results.handleDownload` (lines 77-89): the blob is fetched and handed to
the browser, a failure is logged; no setter is called. -/
def Results.handleDownload (gw : DocGateway) (filename : JsVal) (v : ResultsView) :
    ResultsView :=
  match gw (DocRequest.downloadDocument filename) with
  | Except.ok _ => v
  | Except.error _ => v

/-- The `Back` button of `Results` (line 345): `onBack`, which is
`App.handleBack`. -/
def Results.back (v : ResultsView) : ResultsView :=
  { v with app := App.handleBack v.app }

/-- Whether the `Generate Documents` button is rendered and enabled: the
ternary of lines 304-340 shows it only while `documents` is falsy, and it is
disabled while `generatingDocs`. -/
def Results.generateEnabled (v : ResultsView) : Bool :=
  !v.loc.documents.truthy && !v.loc.generatingDocs

/-- A session on the Results stage: resume, job details and a result present. -/
def resultsSession : App :=
  { activeStep := 3, resumeData := some sampleResume, jobData := some sampleJob,
    analysisResults := some
      (AnalysisResults.mk (JsVal.obj [("overall_score", JsVal.num 7)])
        (JsVal.obj [("ats_score", JsVal.num 80)])
        (JsVal.obj [("culture", JsVal.str "open")])
        (JsVal.obj [("interview_questions", JsVal.arr [])])) }

/-- The freshly mounted `Results` on `resultsSession`. -/
def resultsView : ResultsView :=
  { app := resultsSession, loc := ResultsLocal.init }

/-- A document set as `generateDocuments` returns it. -/
def documentSet (resume coverLetter : String) : JsVal :=
  JsVal.obj [("resume_file_path", JsVal.str resume),
    ("cover_letter_file_path", JsVal.str coverLetter)]

/-- A network that answers `generateDocuments` with a first document set. -/
def firstDocs : DocGateway
  | DocRequest.generateDocuments _ _ _ _ _ _ _ =>
      Except.ok (documentSet "out/resume_1.pdf" "out/cover_1.pdf")
  | DocRequest.downloadDocument _ => Except.ok JsVal.null

/-- A network that answers `generateDocuments` with a second document set,
which has no cover letter. -/
def secondDocs : DocGateway
  | DocRequest.generateDocuments _ _ _ _ _ _ _ =>
      Except.ok (JsVal.obj [("resume_file_path", JsVal.str "out/resume_2.pdf")])
  | DocRequest.downloadDocument _ => Except.ok JsVal.null

/-! ## Frame conditions on the session -/

/-- Session `b` has the `jobData` and the `analysisResults` of session `a`. -/
def sameJobAndResults (a b : App) : Prop :=
  b.jobData = a.jobData ∧ b.analysisResults = a.analysisResults

/-- Session `b` has the `resumeData` and the `analysisResults` of session `a`. -/
def sameResumeAndResults (a b : App) : Prop :=
  b.resumeData = a.resumeData ∧ b.analysisResults = a.analysisResults

/-- Session `b` has the `resumeData` and the `jobData` of session `a`. -/
def sameResumeAndJob (a b : App) : Prop :=
  b.resumeData = a.resumeData ∧ b.jobData = a.jobData

/-- Session `b` has the `resumeData`, `jobData` and `analysisResults` of
session `a`. -/
def sameData (a b : App) : Prop :=
  b.resumeData = a.resumeData ∧ b.jobData = a.jobData ∧
    b.analysisResults = a.analysisResults

/-! ## The history of a walk through the wizard -/

/-- Whether event `ev` in state `s` runs `App.handleReset`: only `Start New
Analysis`, on the rendered Results stage. -/
def resets (s : Session) : UiEvent → Bool
  | UiEvent.resultsReset =>
      match s.view with
      | Mounted.results => s.app.analysisResults.isSome
      | _ => false
  | _ => false

/-- Whether event `ev` in state `s` calls `setResumeData` or `setJobData`: an
upload that resolves with a response, or `Next` on a complete job form. -/
def setsData (s : Session) : UiEvent → Bool
  | UiEvent.uploadSettled i outcome =>
      match s.uploads[i]?, outcome with
      | some _, Except.ok JsVal.undefined => false
      | some _, Except.ok JsVal.null => false
      | some _, Except.ok _ => true
      | _, _ => false
  | UiEvent.jobNext =>
      match s.view with
      | Mounted.jobDetails formData =>
          decide (formData.jobRole ≠ "" ∧ formData.companyName ≠ "")
      | _ => false
  | _ => false

/-- Whether event `ev` in state `s` calls `setAnalysisResults`: the settling
of a run in flight whose four calls resolve. -/
def storesResult (s : Session) : UiEvent → Bool
  | UiEvent.analysisSettled i gw =>
      match s.runs[i]? with
      | some run => !(resultsWritten (effectsFromAwait gw run.resumeData run.jobData)).isEmpty
      | none => false
  | _ => false

/-- Whether the Results stage is rendered. -/
def onResults (s : Session) : Bool :=
  decide (getStepContent s.app.activeStep = Stage.results)

/-- A state of the running application together with what has happened on the
way to it: whether the Results stage has been reached since the last reset,
whether it has been reached since the last reset and since `resumeData` or
`jobData` was last set, and whether a run has stored a result since the last
reset. The three flags only observe the walk; no handler reads them. -/
structure History where
  session : Session
  resultsSinceReset : Bool
  resultsSinceChange : Bool
  successSinceReset : Bool

/-- The history at start: nothing has happened. -/
def History.init : History :=
  { session := Session.init, resultsSinceReset := false, resultsSinceChange := false,
    successSinceReset := false }

/-- One event, with the flags brought up to date. -/
def History.step (h : History) (ev : UiEvent) : History :=
  { session := uiStep h.session ev,
    resultsSinceReset :=
      if resets h.session ev then false
      else h.resultsSinceReset || onResults (uiStep h.session ev),
    resultsSinceChange :=
      if resets h.session ev || setsData h.session ev then onResults (uiStep h.session ev)
      else h.resultsSinceChange || onResults (uiStep h.session ev),
    successSinceReset :=
      if resets h.session ev then false
      else h.successSinceReset || storesResult h.session ev }

/-- The history of a sequence of events from the start. -/
def History.run (events : List UiEvent) : History :=
  events.foldl History.step History.init

/-- The walk of `singleUpload` up to the moment the run has stored its result:
the delay has not elapsed and the Results stage has never been rendered. -/
def beforeResults : List UiEvent :=
  [UiEvent.drop fileA,
   UiEvent.uploadSettled 0 (Except.ok responseA),
   UiEvent.uploadNext,
   UiEvent.jobChange JobField.jobRole "Senior Engineer",
   UiEvent.jobChange JobField.companyName "Acme",
   UiEvent.jobNext,
   UiEvent.analysisSettled 0 echoGateway]

/-- A network on which every call is rejected with an HTTP error. -/
def allDown : Gateway :=
  fun _ => Except.error (httpError (JsVal.str "Service unavailable"))

/-- The walk of `singleUpload` to the Results stage, then back: `Back` starts
a run that fails, `Back` again leads to the job form, where the company is
changed, and `Next` stores the new job details. -/
def editAfterResults : List UiEvent :=
  singleUpload ++
  [UiEvent.resultsBack,
   UiEvent.analysisSettled 0 allDown,
   UiEvent.analysisBack,
   UiEvent.jobChange JobField.companyName "Initech",
   UiEvent.jobNext]

/-- What holds of every history: the state satisfies the invariant of the
running application, a result is present exactly when a run has stored one
since the last reset, it is present when the Results stage has been reached
since the last reset, and reaching the Results stage since the last change of
the inputs is reaching it since the last reset. -/
def History.Inv (h : History) : Prop :=
  h.session.Wf ∧
  h.successSinceReset = h.session.app.analysisResults.isSome ∧
  (h.resultsSinceReset = true → h.session.app.analysisResults.isSome = true) ∧
  (h.resultsSinceChange = true → h.resultsSinceReset = true)

/-! ## End of definitions -/

end Wizard

/-! # Theorems -/

namespace Wizard

/-! ## Effect lists of `performAnalysis`, case by case -/

/-- The complete effect list of a run in which all four calls resolve. -/
theorem performAnalysis_ok (gw : Gateway) (rd : ResumeData) (jd : FormData)
    (r1 r2 r3 r4 : JsVal)
    (h1 : gw (Request.analyzeResume rd.text jd.jobRole jd.jobDescription) = Except.ok r1)
    (h2 : gw (Request.checkATS rd.text jd.jobDescription) = Except.ok r2)
    (h3 : gw (Request.researchCompany jd.companyName) = Except.ok r3)
    (h4 : gw (Request.generateRecommendations jd.jobRole jd.companyName r1 r2 r3)
      = Except.ok r4) :
    performAnalysis gw (some rd) (some jd) =
      [Effect.setError JsVal.null,
       Effect.setCurrentStep "Analyzing your resume...",
       Effect.setProgress 25,
       Effect.call (Request.analyzeResume rd.text jd.jobRole jd.jobDescription),
       Effect.resolved r1,
       Effect.setCurrentStep "Checking ATS compatibility...",
       Effect.setProgress 50,
       Effect.call (Request.checkATS rd.text jd.jobDescription),
       Effect.resolved r2,
       Effect.setCurrentStep "Researching company information...",
       Effect.setProgress 75,
       Effect.call (Request.researchCompany jd.companyName),
       Effect.resolved r3,
       Effect.setCurrentStep "Generating personalized recommendations...",
       Effect.setProgress 90,
       Effect.call (Request.generateRecommendations jd.jobRole jd.companyName r1 r2 r3),
       Effect.resolved r4,
       Effect.setProgress 100,
       Effect.setCurrentStep "Analysis complete!",
       Effect.consoleLog "Analysis complete - Setting results:",
       Effect.setAnalysisResults
         { resumeAnalysis := r1, atsScore := r2, companyResearch := r3, recommendations := r4 },
       Effect.setTimeout 1000] := by
  simp [performAnalysis, performAnalysisRun, bind, Run.andThen, Run.emit, Run.await,
    Run.deref, Run.tryCatch, h1, h2, h3, h4]

/-- The effect list of a run whose first call is rejected. -/
theorem performAnalysis_fail1 (gw : Gateway) (rd : ResumeData) (jd : FormData) (e : JsError)
    (h1 : gw (Request.analyzeResume rd.text jd.jobRole jd.jobDescription) = Except.error e) :
    performAnalysis gw (some rd) (some jd) =
      [Effect.setError JsVal.null,
       Effect.setCurrentStep "Analyzing your resume...",
       Effect.setProgress 25,
       Effect.call (Request.analyzeResume rd.text jd.jobRole jd.jobDescription),
       Effect.rejected e,
       Effect.setError (errorMessage e)] := by
  simp [performAnalysis, performAnalysisRun, bind, Run.andThen, Run.emit, Run.await,
    Run.deref, Run.tryCatch, h1]

/-- The effect list of a run whose second call is rejected. -/
theorem performAnalysis_fail2 (gw : Gateway) (rd : ResumeData) (jd : FormData)
    (r1 : JsVal) (e : JsError)
    (h1 : gw (Request.analyzeResume rd.text jd.jobRole jd.jobDescription) = Except.ok r1)
    (h2 : gw (Request.checkATS rd.text jd.jobDescription) = Except.error e) :
    performAnalysis gw (some rd) (some jd) =
      [Effect.setError JsVal.null,
       Effect.setCurrentStep "Analyzing your resume...",
       Effect.setProgress 25,
       Effect.call (Request.analyzeResume rd.text jd.jobRole jd.jobDescription),
       Effect.resolved r1,
       Effect.setCurrentStep "Checking ATS compatibility...",
       Effect.setProgress 50,
       Effect.call (Request.checkATS rd.text jd.jobDescription),
       Effect.rejected e,
       Effect.setError (errorMessage e)] := by
  simp [performAnalysis, performAnalysisRun, bind, Run.andThen, Run.emit, Run.await,
    Run.deref, Run.tryCatch, h1, h2]

/-- The effect list of a run whose third call is rejected. -/
theorem performAnalysis_fail3 (gw : Gateway) (rd : ResumeData) (jd : FormData)
    (r1 r2 : JsVal) (e : JsError)
    (h1 : gw (Request.analyzeResume rd.text jd.jobRole jd.jobDescription) = Except.ok r1)
    (h2 : gw (Request.checkATS rd.text jd.jobDescription) = Except.ok r2)
    (h3 : gw (Request.researchCompany jd.companyName) = Except.error e) :
    performAnalysis gw (some rd) (some jd) =
      [Effect.setError JsVal.null,
       Effect.setCurrentStep "Analyzing your resume...",
       Effect.setProgress 25,
       Effect.call (Request.analyzeResume rd.text jd.jobRole jd.jobDescription),
       Effect.resolved r1,
       Effect.setCurrentStep "Checking ATS compatibility...",
       Effect.setProgress 50,
       Effect.call (Request.checkATS rd.text jd.jobDescription),
       Effect.resolved r2,
       Effect.setCurrentStep "Researching company information...",
       Effect.setProgress 75,
       Effect.call (Request.researchCompany jd.companyName),
       Effect.rejected e,
       Effect.setError (errorMessage e)] := by
  simp [performAnalysis, performAnalysisRun, bind, Run.andThen, Run.emit, Run.await,
    Run.deref, Run.tryCatch, h1, h2, h3]

/-- The effect list of a run whose fourth call is rejected. -/
theorem performAnalysis_fail4 (gw : Gateway) (rd : ResumeData) (jd : FormData)
    (r1 r2 r3 : JsVal) (e : JsError)
    (h1 : gw (Request.analyzeResume rd.text jd.jobRole jd.jobDescription) = Except.ok r1)
    (h2 : gw (Request.checkATS rd.text jd.jobDescription) = Except.ok r2)
    (h3 : gw (Request.researchCompany jd.companyName) = Except.ok r3)
    (h4 : gw (Request.generateRecommendations jd.jobRole jd.companyName r1 r2 r3)
      = Except.error e) :
    performAnalysis gw (some rd) (some jd) =
      [Effect.setError JsVal.null,
       Effect.setCurrentStep "Analyzing your resume...",
       Effect.setProgress 25,
       Effect.call (Request.analyzeResume rd.text jd.jobRole jd.jobDescription),
       Effect.resolved r1,
       Effect.setCurrentStep "Checking ATS compatibility...",
       Effect.setProgress 50,
       Effect.call (Request.checkATS rd.text jd.jobDescription),
       Effect.resolved r2,
       Effect.setCurrentStep "Researching company information...",
       Effect.setProgress 75,
       Effect.call (Request.researchCompany jd.companyName),
       Effect.resolved r3,
       Effect.setCurrentStep "Generating personalized recommendations...",
       Effect.setProgress 90,
       Effect.call (Request.generateRecommendations jd.jobRole jd.companyName r1 r2 r3),
       Effect.rejected e,
       Effect.setError (errorMessage e)] := by
  simp [performAnalysis, performAnalysisRun, bind, Run.andThen, Run.emit, Run.await,
    Run.deref, Run.tryCatch, h1, h2, h3, h4]

/-- A run of `performAnalysis` returns: its body never throws past the `catch`. -/
theorem performAnalysisRun_returns (gw : Gateway) (resumeData : Option ResumeData)
    (jobData : Option FormData) :
    (performAnalysisRun gw resumeData jobData).result = Except.ok () := by
  cases resumeData <;> cases jobData <;>
    simp [performAnalysisRun, bind, Run.andThen, Run.emit, Run.await, Run.deref, Run.tryCatch]
  rename_i rd jd
  cases h1 : gw (Request.analyzeResume rd.text jd.jobRole jd.jobDescription) <;> simp
  cases h2 : gw (Request.checkATS rd.text jd.jobDescription) <;> simp
  cases h3 : gw (Request.researchCompany jd.companyName) <;> simp
  rename_i r1 r2 r3
  cases h4 : gw (Request.generateRecommendations jd.jobRole jd.companyName r1 r2 r3) <;> simp

/-- The state after a run that failed at step `k` with error `e`: the session
and the timers are as before, the cells of `Analysis` hold the message, the
checkpoint and the label of step `k`. -/
theorem runAnalysis_of_failure (gw : Gateway) (v : AnalysisView) (rd : ResumeData)
    (jd : FormData) (k : Nat) (e : JsError)
    (hrd : v.app.resumeData = some rd) (hjd : v.app.jobData = some jd)
    (hfail : firstFailure gw rd jd = some (k, e)) :
    runAnalysis gw v =
      { app := v.app,
        loc := { error := errorMessage e, progress := checkpoint k, currentStep := stepLabel k },
        timers := v.timers } := by
  unfold firstFailure at hfail
  split at hfail
  · rename_i e1 h1
    simp only [Option.some.injEq, Prod.mk.injEq] at hfail
    obtain ⟨rfl, rfl⟩ := hfail
    simp [runAnalysis, hrd, hjd, performAnalysis_fail1 gw rd jd _ h1, applyEffect,
      checkpoint, stepLabel]
  · rename_i r1 h1
    split at hfail
    · rename_i e2 h2
      simp only [Option.some.injEq, Prod.mk.injEq] at hfail
      obtain ⟨rfl, rfl⟩ := hfail
      simp [runAnalysis, hrd, hjd, performAnalysis_fail2 gw rd jd _ _ h1 h2, applyEffect,
        checkpoint, stepLabel]
    · rename_i r2 h2
      split at hfail
      · rename_i e3 h3
        simp only [Option.some.injEq, Prod.mk.injEq] at hfail
        obtain ⟨rfl, rfl⟩ := hfail
        simp [runAnalysis, hrd, hjd, performAnalysis_fail3 gw rd jd _ _ _ h1 h2 h3,
          applyEffect, checkpoint, stepLabel]
      · rename_i r3 h3
        split at hfail
        · rename_i e4 h4
          simp only [Option.some.injEq, Prod.mk.injEq] at hfail
          obtain ⟨rfl, rfl⟩ := hfail
          simp [runAnalysis, hrd, hjd, performAnalysis_fail4 gw rd jd _ _ _ _ h1 h2 h3 h4,
            applyEffect, checkpoint, stepLabel]
        · simp at hfail

/-- The state after a run in which all four calls resolved. -/
theorem runAnalysis_of_success (gw : Gateway) (v : AnalysisView) (rd : ResumeData)
    (jd : FormData) (r1 r2 r3 r4 : JsVal)
    (hrd : v.app.resumeData = some rd) (hjd : v.app.jobData = some jd)
    (h1 : gw (Request.analyzeResume rd.text jd.jobRole jd.jobDescription) = Except.ok r1)
    (h2 : gw (Request.checkATS rd.text jd.jobDescription) = Except.ok r2)
    (h3 : gw (Request.researchCompany jd.companyName) = Except.ok r3)
    (h4 : gw (Request.generateRecommendations jd.jobRole jd.companyName r1 r2 r3)
      = Except.ok r4) :
    runAnalysis gw v =
      { app := { v.app with analysisResults := some (AnalysisResults.mk r1 r2 r3 r4) },
        loc := { error := JsVal.null, progress := 100, currentStep := "Analysis complete!" },
        timers := v.timers + 1 } := by
  simp [runAnalysis, hrd, hjd, performAnalysis_ok gw rd jd r1 r2 r3 r4 h1 h2 h3 h4, applyEffect]

/-- Either some call of a run is rejected or all four resolve. -/
theorem firstFailure_cases (gw : Gateway) (rd : ResumeData) (jd : FormData) :
    (∃ k e, firstFailure gw rd jd = some (k, e)) ∨
    (∃ r1 r2 r3 r4,
      gw (Request.analyzeResume rd.text jd.jobRole jd.jobDescription) = Except.ok r1 ∧
      gw (Request.checkATS rd.text jd.jobDescription) = Except.ok r2 ∧
      gw (Request.researchCompany jd.companyName) = Except.ok r3 ∧
      gw (Request.generateRecommendations jd.jobRole jd.companyName r1 r2 r3)
        = Except.ok r4) := by
  unfold firstFailure
  cases h1 : gw (Request.analyzeResume rd.text jd.jobRole jd.jobDescription) with
  | error e => exact Or.inl ⟨1, e, rfl⟩
  | ok r1 =>
    cases h2 : gw (Request.checkATS rd.text jd.jobDescription) with
    | error e => exact Or.inl ⟨2, e, rfl⟩
    | ok r2 =>
      cases h3 : gw (Request.researchCompany jd.companyName) with
      | error e => exact Or.inl ⟨3, e, rfl⟩
      | ok r3 =>
        cases h4 : gw (Request.generateRecommendations jd.jobRole jd.companyName r1 r2 r3) with
        | error e => exact Or.inl ⟨4, e, by simp [h4]⟩
        | ok r4 => exact Or.inr ⟨r1, r2, r3, r4, rfl, rfl, rfl, h4⟩

/-- The message set by the `catch` block is never falsy. -/
theorem errorMessage_truthy (e : JsError) : (errorMessage e).truthy = true := by
  unfold errorMessage JsVal.orElse
  split
  · assumption
  · simp [genericError, JsVal.truthy]

/-- What a failed run does, read off its effect list: exactly `k` calls are
issued, the list ends with the rejection and the one error message, no result
is written and no timer is scheduled. -/
theorem performAnalysis_of_failure (gw : Gateway) (rd : ResumeData) (jd : FormData)
    (k : Nat) (e : JsError) (hfail : firstFailure gw rd jd = some (k, e)) :
    1 ≤ k ∧ k ≤ 4 ∧
    (callsIssued (performAnalysis gw (some rd) (some jd))).length = k ∧
    (∃ pre, performAnalysis gw (some rd) (some jd) =
      pre ++ [Effect.rejected e, Effect.setError (errorMessage e)]) ∧
    resultsWritten (performAnalysis gw (some rd) (some jd)) = [] ∧
    timersScheduled (performAnalysis gw (some rd) (some jd)) = [] ∧
    errorsSet (performAnalysis gw (some rd) (some jd)) = [JsVal.null, errorMessage e] := by
  unfold firstFailure at hfail
  split at hfail
  · rename_i e1 h1
    simp only [Option.some.injEq, Prod.mk.injEq] at hfail
    obtain ⟨rfl, rfl⟩ := hfail
    rw [performAnalysis_fail1 gw rd jd _ h1]
    refine ⟨by decide, by decide, rfl, ⟨[Effect.setError JsVal.null, Effect.setCurrentStep "Analyzing your resume...",
        Effect.setProgress 25,
        Effect.call (Request.analyzeResume rd.text jd.jobRole jd.jobDescription)], rfl⟩, rfl, rfl, rfl⟩
  · rename_i r1 h1
    split at hfail
    · rename_i e2 h2
      simp only [Option.some.injEq, Prod.mk.injEq] at hfail
      obtain ⟨rfl, rfl⟩ := hfail
      rw [performAnalysis_fail2 gw rd jd _ _ h1 h2]
      refine ⟨by decide, by decide, rfl, ⟨[Effect.setError JsVal.null, Effect.setCurrentStep "Analyzing your resume...",
        Effect.setProgress 25,
        Effect.call (Request.analyzeResume rd.text jd.jobRole jd.jobDescription),
        Effect.resolved r1, Effect.setCurrentStep "Checking ATS compatibility...",
        Effect.setProgress 50, Effect.call (Request.checkATS rd.text jd.jobDescription)], rfl⟩, rfl, rfl, rfl⟩
    · rename_i r2 h2
      split at hfail
      · rename_i e3 h3
        simp only [Option.some.injEq, Prod.mk.injEq] at hfail
        obtain ⟨rfl, rfl⟩ := hfail
        rw [performAnalysis_fail3 gw rd jd _ _ _ h1 h2 h3]
        refine ⟨by decide, by decide, rfl, ⟨[Effect.setError JsVal.null, Effect.setCurrentStep "Analyzing your resume...",
        Effect.setProgress 25,
        Effect.call (Request.analyzeResume rd.text jd.jobRole jd.jobDescription),
        Effect.resolved r1, Effect.setCurrentStep "Checking ATS compatibility...",
        Effect.setProgress 50, Effect.call (Request.checkATS rd.text jd.jobDescription),
        Effect.resolved r2, Effect.setCurrentStep "Researching company information...",
        Effect.setProgress 75, Effect.call (Request.researchCompany jd.companyName)], rfl⟩, rfl, rfl, rfl⟩
      · rename_i r3 h3
        split at hfail
        · rename_i e4 h4
          simp only [Option.some.injEq, Prod.mk.injEq] at hfail
          obtain ⟨rfl, rfl⟩ := hfail
          rw [performAnalysis_fail4 gw rd jd _ _ _ _ h1 h2 h3 h4]
          refine ⟨by decide, by decide, rfl, ⟨[Effect.setError JsVal.null, Effect.setCurrentStep "Analyzing your resume...",
        Effect.setProgress 25,
        Effect.call (Request.analyzeResume rd.text jd.jobRole jd.jobDescription),
        Effect.resolved r1, Effect.setCurrentStep "Checking ATS compatibility...",
        Effect.setProgress 50, Effect.call (Request.checkATS rd.text jd.jobDescription),
        Effect.resolved r2, Effect.setCurrentStep "Researching company information...",
        Effect.setProgress 75, Effect.call (Request.researchCompany jd.companyName),
        Effect.resolved r3,
        Effect.setCurrentStep "Generating personalized recommendations...",
        Effect.setProgress 90,
        Effect.call (Request.generateRecommendations jd.jobRole jd.companyName r1 r2 r3)], rfl⟩, rfl, rfl, rfl⟩
        · simp at hfail

/-! ## The claims -/

/-- C2: from every wizard state, `handleReset` yields the state with
`activeStep = 0` (the Upload stage) and `resumeData`, `jobData` and
`analysisResults` all `null`. -/
theorem handleReset_yields_initial (s : App) :
    App.handleReset s =
      { activeStep := 0, resumeData := none, jobData := none, analysisResults := none } ∧
    App.handleReset s = App.init ∧
    getStepContent (App.handleReset s).activeStep = Stage.upload :=
  ⟨rfl, rfl, rfl⟩

/-- C9: from every wizard state with `activeStep = n`, `1 ≤ n ≤ 3`,
`handleBack` yields the state with `activeStep = n - 1` and with `resumeData`,
`jobData` and `analysisResults` unchanged. -/
theorem handleBack_frame (s : App) (n : Int) (hn : s.activeStep = n)
    (h1 : 1 ≤ n) (h3 : n ≤ 3) :
    App.handleBack s =
      { activeStep := n - 1, resumeData := s.resumeData, jobData := s.jobData,
        analysisResults := s.analysisResults } ∧
    0 ≤ (App.handleBack s).activeStep ∧ (App.handleBack s).activeStep ≤ 2 := by
  subst hn
  refine ⟨rfl, ?_, ?_⟩ <;> simp only [App.handleBack] <;> omega

/-- Witness for C9 on the Analysis stage of `sampleSession`. -/
theorem handleBack_frame_witness :
    (1 : Int) ≤ 2 ∧ (2 : Int) ≤ 3 ∧
    App.handleBack sampleSession =
      { activeStep := 2 - 1, resumeData := sampleSession.resumeData,
        jobData := sampleSession.jobData,
        analysisResults := sampleSession.analysisResults } :=
  ⟨by decide, by decide,
    (handleBack_frame sampleSession 2 rfl (by decide) (by decide)).1⟩

/-- C3: when all four gateway calls of a run resolve, the progress checkpoints
and the gateway traffic of `performAnalysis` are, in order: progress 25, call
`analyzeResume`, its resolution, progress 50, call `checkATS`, its resolution,
progress 75, call `researchCompany`, its resolution, progress 90, call
`generateRecommendations`, its resolution, progress 100. So the progress
values are exactly 25, 50, 75, 90, 100 and each call follows the resolution
of the one before it. -/
theorem performAnalysis_success_trace (gw : Gateway) (rd : ResumeData) (jd : FormData)
    (r1 r2 r3 r4 : JsVal)
    (h1 : gw (Request.analyzeResume rd.text jd.jobRole jd.jobDescription) = Except.ok r1)
    (h2 : gw (Request.checkATS rd.text jd.jobDescription) = Except.ok r2)
    (h3 : gw (Request.researchCompany jd.companyName) = Except.ok r3)
    (h4 : gw (Request.generateRecommendations jd.jobRole jd.companyName r1 r2 r3)
      = Except.ok r4) :
    observable (performAnalysis gw (some rd) (some jd)) =
      [Effect.setProgress 25,
       Effect.call (Request.analyzeResume rd.text jd.jobRole jd.jobDescription),
       Effect.resolved r1,
       Effect.setProgress 50,
       Effect.call (Request.checkATS rd.text jd.jobDescription),
       Effect.resolved r2,
       Effect.setProgress 75,
       Effect.call (Request.researchCompany jd.companyName),
       Effect.resolved r3,
       Effect.setProgress 90,
       Effect.call (Request.generateRecommendations jd.jobRole jd.companyName r1 r2 r3),
       Effect.resolved r4,
       Effect.setProgress 100] ∧
    progressAndCalls (performAnalysis gw (some rd) (some jd)) =
      [Effect.setProgress 25,
       Effect.call (Request.analyzeResume rd.text jd.jobRole jd.jobDescription),
       Effect.setProgress 50,
       Effect.call (Request.checkATS rd.text jd.jobDescription),
       Effect.setProgress 75,
       Effect.call (Request.researchCompany jd.companyName),
       Effect.setProgress 90,
       Effect.call (Request.generateRecommendations jd.jobRole jd.companyName r1 r2 r3),
       Effect.setProgress 100] ∧
    progressValues (performAnalysis gw (some rd) (some jd)) = [25, 50, 75, 90, 100] ∧
    callsIssued (performAnalysis gw (some rd) (some jd)) =
      [Request.analyzeResume rd.text jd.jobRole jd.jobDescription,
       Request.checkATS rd.text jd.jobDescription,
       Request.researchCompany jd.companyName,
       Request.generateRecommendations jd.jobRole jd.companyName r1 r2 r3] := by
  rw [performAnalysis_ok gw rd jd r1 r2 r3 r4 h1 h2 h3 h4]
  exact ⟨rfl, rfl, rfl, rfl⟩

/-- Witness for C3: the run of `sampleResume` and `sampleJob` on
`cannedGateway` emits the progress values 25, 50, 75, 90, 100. -/
theorem performAnalysis_success_trace_witness :
    progressValues (performAnalysis cannedGateway (some sampleResume) (some sampleJob))
      = [25, 50, 75, 90, 100] :=
  (performAnalysis_success_trace cannedGateway sampleResume sampleJob
    _ _ _ _ rfl rfl rfl rfl).2.2.1

/-- C4: when the four gateway calls of a run return `r1`, `r2`, `r3`, `r4`,
`performAnalysis` calls `setAnalysisResults` exactly once, with the object
whose `resumeAnalysis` is `r1`, `atsScore` is `r2`, `companyResearch` is `r3`
and `recommendations` is `r4`; after the run the session holds that object. -/
theorem performAnalysis_aggregates (gw : Gateway) (v : AnalysisView) (rd : ResumeData)
    (jd : FormData) (r1 r2 r3 r4 : JsVal)
    (hrd : v.app.resumeData = some rd) (hjd : v.app.jobData = some jd)
    (h1 : gw (Request.analyzeResume rd.text jd.jobRole jd.jobDescription) = Except.ok r1)
    (h2 : gw (Request.checkATS rd.text jd.jobDescription) = Except.ok r2)
    (h3 : gw (Request.researchCompany jd.companyName) = Except.ok r3)
    (h4 : gw (Request.generateRecommendations jd.jobRole jd.companyName r1 r2 r3)
      = Except.ok r4) :
    resultsWritten (performAnalysis gw v.app.resumeData v.app.jobData) =
      [{ resumeAnalysis := r1, atsScore := r2, companyResearch := r3,
         recommendations := r4 }] ∧
    (runAnalysis gw v).app.analysisResults =
      some { resumeAnalysis := r1, atsScore := r2, companyResearch := r3,
             recommendations := r4 } := by
  constructor
  · rw [hrd, hjd, performAnalysis_ok gw rd jd r1 r2 r3 r4 h1 h2 h3 h4]
    rfl
  · rw [runAnalysis_of_success gw v rd jd r1 r2 r3 r4 hrd hjd h1 h2 h3 h4]

/-- Witness for C4: on `cannedGateway` the session of `sampleView` receives
the four canned responses under their own keys. -/
theorem performAnalysis_aggregates_witness :
    (runAnalysis cannedGateway sampleView).app.analysisResults =
      some { resumeAnalysis := JsVal.obj [("overall_score", JsVal.num 7)],
             atsScore := JsVal.obj [("ats_score", JsVal.num 80)],
             companyResearch := JsVal.obj [("culture", JsVal.str "open")],
             recommendations := JsVal.obj [("interview_questions", JsVal.arr [])] } :=
  (performAnalysis_aggregates cannedGateway sampleView sampleResume sampleJob
    _ _ _ _ rfl rfl rfl rfl rfl rfl).2

/-- The first call a run issues is `analyzeResume`, whatever the network does. -/
theorem callsIssued_head (gw : Gateway) (rd : ResumeData) (jd : FormData) :
    (callsIssued (performAnalysis gw (some rd) (some jd))).head? =
      some (Request.analyzeResume rd.text jd.jobRole jd.jobDescription) := by
  rcases firstFailure_cases gw rd jd with ⟨k, e, hfail⟩ | ⟨r1, r2, r3, r4, h1, h2, h3, h4⟩
  · unfold firstFailure at hfail
    split at hfail
    · rename_i e1 h1
      rw [performAnalysis_fail1 gw rd jd _ h1]; rfl
    · rename_i r1 h1
      split at hfail
      · rename_i e2 h2
        rw [performAnalysis_fail2 gw rd jd _ _ h1 h2]; rfl
      · rename_i r2 h2
        split at hfail
        · rename_i e3 h3
          rw [performAnalysis_fail3 gw rd jd _ _ _ h1 h2 h3]; rfl
        · rename_i r3 h3
          split at hfail
          · rename_i e4 h4
            rw [performAnalysis_fail4 gw rd jd _ _ _ _ h1 h2 h3 h4]; rfl
          · simp at hfail
  · rw [performAnalysis_ok gw rd jd r1 r2 r3 r4 h1 h2 h3 h4]; rfl

/-- A run overwrites the three cells of `Analysis` before anything else, so
its outcome does not depend on what they held. -/
theorem runAnalysis_loc_irrelevant (gw : Gateway) (v : AnalysisView) (loc : AnalysisLocal)
    (rd : ResumeData) (jd : FormData)
    (hrd : v.app.resumeData = some rd) (hjd : v.app.jobData = some jd) :
    runAnalysis gw { v with loc := loc } = runAnalysis gw v := by
  rcases firstFailure_cases gw rd jd with ⟨k, e, hfail⟩ | ⟨r1, r2, r3, r4, h1, h2, h3, h4⟩
  · rw [runAnalysis_of_failure gw v rd jd k e hrd hjd hfail,
      runAnalysis_of_failure gw { v with loc := loc } rd jd k e hrd hjd hfail]
  · rw [runAnalysis_of_success gw v rd jd r1 r2 r3 r4 hrd hjd h1 h2 h3 h4,
      runAnalysis_of_success gw { v with loc := loc } rd jd r1 r2 r3 r4 hrd hjd h1 h2 h3 h4]

/-- C5: if the `k`-th gateway call of a run is rejected after calls `1..k-1`
resolved (`k` is then between 1 and 4), exactly `k` calls are issued and the
run ends with the rejection and its error message, `setAnalysisResults` is
never called and no `onNext` is scheduled; the session (`analysisResults` and
`activeStep` included) and the pending timers are the same after the run as
before it, and the cells of `Analysis` hold only the error message, the
checkpoint and the label of step `k`. -/
theorem performAnalysis_failure_aborts (gw : Gateway) (v : AnalysisView) (rd : ResumeData)
    (jd : FormData) (k : Nat) (e : JsError)
    (hrd : v.app.resumeData = some rd) (hjd : v.app.jobData = some jd)
    (hfail : firstFailure gw rd jd = some (k, e)) :
    1 ≤ k ∧ k ≤ 4 ∧
    (callsIssued (performAnalysis gw v.app.resumeData v.app.jobData)).length = k ∧
    (∃ pre, performAnalysis gw v.app.resumeData v.app.jobData =
      pre ++ [Effect.rejected e, Effect.setError (errorMessage e)]) ∧
    resultsWritten (performAnalysis gw v.app.resumeData v.app.jobData) = [] ∧
    timersScheduled (performAnalysis gw v.app.resumeData v.app.jobData) = [] ∧
    (runAnalysis gw v).app = v.app ∧
    (runAnalysis gw v).timers = v.timers ∧
    elapse (runAnalysis gw { v with timers := 0 }) = runAnalysis gw { v with timers := 0 } ∧
    (runAnalysis gw v).loc =
      { error := errorMessage e, progress := checkpoint k, currentStep := stepLabel k } := by
  obtain ⟨hk1, hk4, hcalls, hend, hres, htim, _⟩ := performAnalysis_of_failure gw rd jd k e hfail
  rw [hrd, hjd]
  refine ⟨hk1, hk4, hcalls, hend, hres, htim, ?_, ?_, ?_, ?_⟩
  · rw [runAnalysis_of_failure gw v rd jd k e hrd hjd hfail]
  · rw [runAnalysis_of_failure gw v rd jd k e hrd hjd hfail]
  · rw [runAnalysis_of_failure gw { v with timers := 0 } rd jd k e hrd hjd hfail]
    simp [elapse]
  · rw [runAnalysis_of_failure gw v rd jd k e hrd hjd hfail]

/-- Witness for C5: company research (step 3) is rejected on `researchDown`;
the session of `sampleView` is left as it was. -/
theorem performAnalysis_failure_aborts_witness :
    firstFailure researchDown sampleResume sampleJob
      = some (3, httpError (JsVal.str "Company lookup failed")) ∧
    (runAnalysis researchDown sampleView).app = sampleView.app :=
  ⟨rfl, (performAnalysis_failure_aborts researchDown sampleView sampleResume sampleJob 3
    (httpError (JsVal.str "Company lookup failed")) rfl rfl rfl).2.2.2.2.2.2.1⟩

/-- The generic message of the `catch` block is a string, so React renders it. -/
theorem genericError_renderable : genericError.renderable = true := rfl

/-- A string detail is stored as it is and React renders it: after the failed
run on `researchDown` the error branch with `Retry` is on screen. -/
theorem retryShown_researchDown :
    retryShown (runAnalysis researchDown sampleView) = true := rfl

/-- An array-of-objects detail is truthy, so line 79 stores it, and it is not
a valid React child, so the render of line 95 throws: after the failed run on
`validationDown` no error branch, and hence no `Retry` button, is on screen. -/
theorem retryShown_validationDown :
    (runAnalysis validationDown sampleView).loc.error = validationDetail ∧
    (runAnalysis validationDown sampleView).loc.error.truthy = true ∧
    retryShown (runAnalysis validationDown sampleView) = false :=
  ⟨rfl, rfl, rfl⟩

/-- C6: after a run that failed at any step `k` with error `e`, the error
branch with the `Retry` button is on screen exactly when the reported message
is a valid React child (a string detail, or the generic message; an object or
array-of-objects detail makes the render throw and leaves no button). The run
that `Retry` starts issues `analyzeResume` first whatever the network then
does; when the four calls of the retry resolve, they are issued in the order
`analyzeResume`, `checkATS`, `researchCompany`, `generateRecommendations` and
the session receives their four responses. The state after the retry is the
state the same run would have produced without the failed run before it, so
nothing of the failed run is reused. -/
theorem retry_restarts_from_step_one (gwFailed gwRetry : Gateway) (v : AnalysisView)
    (rd : ResumeData) (jd : FormData) (k : Nat) (e : JsError) (r1 r2 r3 r4 : JsVal)
    (hrd : v.app.resumeData = some rd) (hjd : v.app.jobData = some jd)
    (hfail : firstFailure gwFailed rd jd = some (k, e))
    (h1 : gwRetry (Request.analyzeResume rd.text jd.jobRole jd.jobDescription) = Except.ok r1)
    (h2 : gwRetry (Request.checkATS rd.text jd.jobDescription) = Except.ok r2)
    (h3 : gwRetry (Request.researchCompany jd.companyName) = Except.ok r3)
    (h4 : gwRetry (Request.generateRecommendations jd.jobRole jd.companyName r1 r2 r3)
      = Except.ok r4) :
    retryShown (runAnalysis gwFailed v) = (errorMessage e).renderable ∧
    (∀ gw : Gateway,
      (callsIssued (performAnalysis gw (runAnalysis gwFailed v).app.resumeData
        (runAnalysis gwFailed v).app.jobData)).head? =
        some (Request.analyzeResume rd.text jd.jobRole jd.jobDescription)) ∧
    (∀ gw : Gateway, retry gw (runAnalysis gwFailed v) = runAnalysis gw v) ∧
    callsIssued (performAnalysis gwRetry (runAnalysis gwFailed v).app.resumeData
        (runAnalysis gwFailed v).app.jobData) =
      [Request.analyzeResume rd.text jd.jobRole jd.jobDescription,
       Request.checkATS rd.text jd.jobDescription,
       Request.researchCompany jd.companyName,
       Request.generateRecommendations jd.jobRole jd.companyName r1 r2 r3] ∧
    retry gwRetry (runAnalysis gwFailed v) =
      { app := { v.app with analysisResults := some (AnalysisResults.mk r1 r2 r3 r4) },
        loc := { error := JsVal.null, progress := 100, currentStep := "Analysis complete!" },
        timers := v.timers + 1 } := by
  have hf := runAnalysis_of_failure gwFailed v rd jd k e hrd hjd hfail
  have hindep : ∀ gw : Gateway, retry gw (runAnalysis gwFailed v) = runAnalysis gw v := by
    intro gw
    rw [hf]
    exact runAnalysis_loc_irrelevant gw v _ rd jd hrd hjd
  refine ⟨?_, ?_, hindep, ?_, ?_⟩
  · rw [hf]
    simp only [retryShown, errorMessage_truthy e, Bool.true_and]
  · intro gw
    rw [hf]
    simp only [hrd, hjd]
    exact callsIssued_head gw rd jd
  · rw [hf]
    simp only [hrd, hjd]
    rw [performAnalysis_ok gwRetry rd jd r1 r2 r3 r4 h1 h2 h3 h4]
    rfl
  · rw [hindep gwRetry]
    exact runAnalysis_of_success gwRetry v rd jd r1 r2 r3 r4 hrd hjd h1 h2 h3 h4

/-- Witness for C6: a run fails at company research on `researchDown` with a
string detail, which React renders; the retry on `cannedGateway` issues all
four calls, `analyzeResume` first. -/
theorem retry_restarts_from_step_one_witness :
    firstFailure researchDown sampleResume sampleJob
      = some (3, httpError (JsVal.str "Company lookup failed")) ∧
    (errorMessage (httpError (JsVal.str "Company lookup failed"))).renderable = true ∧
    (callsIssued (performAnalysis cannedGateway
        (runAnalysis researchDown sampleView).app.resumeData
        (runAnalysis researchDown sampleView).app.jobData)).length = 4 :=
  ⟨rfl, rfl, by
    rw [(retry_restarts_from_step_one researchDown cannedGateway sampleView sampleResume
      sampleJob 3 (httpError (JsVal.str "Company lookup failed")) _ _ _ _
      rfl rfl rfl rfl rfl rfl rfl).2.2.2.1]
    rfl⟩

/-- C7: a run that fails with error `e` calls `setError` twice: first with
`null` (the clearing at the start) and then once with a message, so exactly
one error message is reported. The message is `e.response.data.detail` when
the error carries a detail, that is when that value is truthy, and it is the
generic message otherwise: when the error has no response, the response has
no data, the data has no detail, or the detail is the empty string. -/
theorem analysis_error_message (gw : Gateway) (rd : ResumeData) (jd : FormData)
    (k : Nat) (e : JsError) (hfail : firstFailure gw rd jd = some (k, e)) :
    errorsSet (performAnalysis gw (some rd) (some jd)) = [JsVal.null, errorMessage e] ∧
    errorMessage e =
      (if (errorDetail e).truthy then errorDetail e
       else JsVal.str "Analysis failed. Please try again.") ∧
    (∀ x : JsError, (errorDetail x).truthy = true → errorMessage x = errorDetail x) ∧
    (∀ x : JsError, (errorDetail x).truthy = false → errorMessage x = genericError) ∧
    (∀ x : JsError, x.response = JsVal.undefined → errorMessage x = genericError) ∧
    (∀ x : JsError, x.response.optGet "data" = JsVal.undefined →
      errorMessage x = genericError) ∧
    (∀ x : JsError, errorDetail x = JsVal.undefined → errorMessage x = genericError) ∧
    (∀ x : JsError, errorDetail x = JsVal.str "" → errorMessage x = genericError) := by
  refine ⟨(performAnalysis_of_failure gw rd jd k e hfail).2.2.2.2.2.2, rfl,
    ?_, ?_, ?_, ?_, ?_, ?_⟩
  · intro x hx
    simp [errorMessage, JsVal.orElse, hx]
  · intro x hx
    simp [errorMessage, JsVal.orElse, hx]
  · intro x hx
    simp [errorMessage, errorDetail, JsVal.orElse, JsVal.optGet, JsVal.truthy, hx]
  · intro x hx
    have hd : errorDetail x = JsVal.undefined := by
      unfold errorDetail
      rw [hx]
      rfl
    simp [errorMessage, JsVal.orElse, JsVal.truthy, hd]
  · intro x hx
    simp [errorMessage, JsVal.orElse, JsVal.truthy, hx]
  · intro x hx
    simp [errorMessage, JsVal.orElse, JsVal.truthy, hx]

/-- Witness for C7: the rejection of company research on `researchDown`
carries a detail, and that detail is the message. -/
theorem analysis_error_message_witness :
    firstFailure researchDown sampleResume sampleJob
      = some (3, httpError (JsVal.str "Company lookup failed")) ∧
    errorsSet (performAnalysis researchDown (some sampleResume) (some sampleJob)) =
      [JsVal.null, JsVal.str "Company lookup failed"] :=
  ⟨rfl, (analysis_error_message researchDown sampleResume sampleJob 3
    (httpError (JsVal.str "Company lookup failed")) rfl).1⟩

/-- The step number at which `getStepContent` renders the Upload stage. -/
theorem getStepContent_upload {n : Int} (h : getStepContent n = Stage.upload) : n = 0 := by
  unfold getStepContent at h
  split_ifs at h with h0 h1 h2 h3
  exact h0

/-- The step number at which `getStepContent` renders the JobDetails stage. -/
theorem getStepContent_jobDetails {n : Int} (h : getStepContent n = Stage.jobDetails) :
    n = 1 := by
  unfold getStepContent at h
  split_ifs at h with h0 h1 h2 h3
  exact h1

/-- The step number at which `getStepContent` renders the Analysis stage. -/
theorem getStepContent_analysis {n : Int} (h : getStepContent n = Stage.analysis) : n = 2 := by
  unfold getStepContent at h
  split_ifs at h with h0 h1 h2 h3
  exact h2

/-- The step number at which `getStepContent` renders the Results stage. -/
theorem getStepContent_results {n : Int} (h : getStepContent n = Stage.results) : n = 3 := by
  unfold getStepContent at h
  split_ifs at h with h0 h1 h2 h3
  exact h3

/-- A run followed by its delayed `onNext`, on a session with resume and job
details present: either the run failed and the session is as before, or the
session holds a result and `activeStep` is one more. -/
theorem runThenAdvance_cases (gw : Gateway) (s : App) (rd : ResumeData) (jd : FormData)
    (hrd : s.resumeData = some rd) (hjd : s.jobData = some jd) :
    Analysis.runThenAdvance gw s = s ∨
    ∃ r, Analysis.runThenAdvance gw s =
      { s with activeStep := s.activeStep + 1, analysisResults := some r } := by
  rcases firstFailure_cases gw rd jd with ⟨k, e, hfail⟩ | ⟨r1, r2, r3, r4, h1, h2, h3, h4⟩
  · left
    unfold Analysis.runThenAdvance
    rw [runAnalysis_of_failure gw _ rd jd k e hrd hjd hfail]
    simp [elapse]
  · right
    refine ⟨AnalysisResults.mk r1 r2 r3 r4, ?_⟩
    unfold Analysis.runThenAdvance
    rw [runAnalysis_of_success gw _ rd jd r1 r2 r3 r4 hrd hjd h1 h2 h3 h4]
    simp [elapse, App.handleNext]

/-- Every step of the wizard preserves the guards. -/
theorem wizardStep_stageGuards (s : App) (ev : WizardEvent) (h : stageGuards s) :
    stageGuards (wizardStep s ev) := by
  obtain ⟨hr, hj⟩ := h
  cases ev with
  | uploadResolved file result =>
    cases result <;>
      first
      | exact ⟨hr, hj⟩
      | exact ⟨fun _ => rfl, hj⟩
  | uploadNext =>
    simp only [wizardStep]
    split_ifs with hstage
    · have h0 := getStepContent_upload hstage
      unfold UploadResume.handleNext
      split_ifs with hsome
      · refine ⟨fun _ => hsome, fun h2 => ?_⟩
        simp only [App.handleNext] at h2
        omega
      · exact ⟨hr, hj⟩
    · exact ⟨hr, hj⟩
  | jobNext formData =>
    simp only [wizardStep]
    split_ifs with hstage
    · have h1 := getStepContent_jobDetails hstage
      unfold JobDetails.handleNext
      split_ifs with hform
      · refine ⟨fun _ => hr (by omega), fun _ => ⟨formData, rfl, hform.1, hform.2⟩⟩
      · exact ⟨hr, hj⟩
    · exact ⟨hr, hj⟩
  | back =>
    refine ⟨fun h1 => hr ?_, fun h2 => hj ?_⟩
    · simp only [wizardStep, App.handleBack] at h1
      omega
    · simp only [wizardStep, App.handleBack] at h2
      omega
  | reset =>
    refine ⟨fun h1 => ?_, fun h2 => ?_⟩
    · simp [wizardStep, App.handleReset] at h1
    · simp [wizardStep, App.handleReset] at h2
  | analysisRun gw =>
    simp only [wizardStep]
    split_ifs with hstage
    · have h2 := getStepContent_analysis hstage
      obtain ⟨jd, hjd, hrole, hcompany⟩ := hj (by omega)
      have hsome := hr (by omega)
      obtain ⟨rd, hrd⟩ := Option.isSome_iff_exists.mp hsome
      rcases runThenAdvance_cases gw s rd jd hrd hjd with hsame | ⟨r, hnext⟩
      · rw [hsame]
        exact ⟨hr, hj⟩
      · rw [hnext]
        exact ⟨fun _ => hsome, fun _ => ⟨jd, hjd, hrole, hcompany⟩⟩
    · exact ⟨hr, hj⟩

/-- The guards hold along every sequence of steps from a state where they hold. -/
theorem foldl_wizardStep_stageGuards (events : List WizardEvent) (s : App)
    (h : stageGuards s) : stageGuards (events.foldl wizardStep s) := by
  induction events generalizing s with
  | nil => exact h
  | cons ev rest ih => exact ih _ (wizardStep_stageGuards s ev h)

/-- C1: in the step relation over (`activeStep`, `resumeData`, `jobData`,
`analysisResults`) whose steps are `UploadResume.handleNext`,
`JobDetails.handleNext`, `App.handleBack`, `App.handleReset`, a resolved upload
and a run of the analysis followed by its delayed `onNext`, every state
reached from the initial state with `activeStep >= 1` has `resumeData`
present, and every one with `activeStep >= 2` has `jobData` present with
non-empty `jobRole` and non-empty `companyName`. -/
theorem wizard_stage_guards (events : List WizardEvent) :
    (1 ≤ (wizardRun events).activeStep → (wizardRun events).resumeData.isSome = true) ∧
    (2 ≤ (wizardRun events).activeStep →
      ∃ jd, (wizardRun events).jobData = some jd ∧ jd.jobRole ≠ "" ∧ jd.companyName ≠ "") := by
  have hinit : stageGuards App.init := by
    constructor
    · intro h
      simp [App.init] at h
    · intro h
      simp [App.init] at h
  exact foldl_wizardStep_stageGuards events App.init hinit

/-- Witness for C1: `sampleWalk` reaches the Results stage, and there the job
details are complete. -/
theorem wizard_stage_guards_witness :
    2 ≤ (wizardRun sampleWalk).activeStep ∧
    ∃ jd, (wizardRun sampleWalk).jobData = some jd ∧ jd.jobRole ≠ "" ∧ jd.companyName ≠ "" :=
  ⟨by decide, (wizard_stage_guards sampleWalk).2 (by decide)⟩

/-- C8, as the code has it: after a successful run has written
`analysisResults` and scheduled `onNext`, tearing the component down cancels
nothing. The callback is still pending after the teardown, it fires when the
delay elapses and increments `activeStep` by one; `analysisResults` stays as
written through the teardown and the firing. -/
theorem teardown_keeps_timer (gw : Gateway) (v : AnalysisView) (rd : ResumeData)
    (jd : FormData) (r1 r2 r3 r4 : JsVal)
    (hrd : v.app.resumeData = some rd) (hjd : v.app.jobData = some jd)
    (h1 : gw (Request.analyzeResume rd.text jd.jobRole jd.jobDescription) = Except.ok r1)
    (h2 : gw (Request.checkATS rd.text jd.jobDescription) = Except.ok r2)
    (h3 : gw (Request.researchCompany jd.companyName) = Except.ok r3)
    (h4 : gw (Request.generateRecommendations jd.jobRole jd.companyName r1 r2 r3)
      = Except.ok r4) :
    (analysisStep (analysisStep { view := v, mounted := true } (AnalysisEvent.run gw))
        AnalysisEvent.teardown).view.timers = v.timers + 1 ∧
    (analysisStep (analysisStep { view := v, mounted := true } (AnalysisEvent.run gw))
        AnalysisEvent.teardown).view.app.analysisResults
      = some (AnalysisResults.mk r1 r2 r3 r4) ∧
    (analysisStep (analysisStep (analysisStep { view := v, mounted := true }
        (AnalysisEvent.run gw)) AnalysisEvent.teardown) AnalysisEvent.delayElapsed).view.app
      = { v.app with activeStep := v.app.activeStep + 1,
                     analysisResults := some (AnalysisResults.mk r1 r2 r3 r4) } ∧
    (analysisStep (analysisStep (analysisStep { view := v, mounted := true }
        (AnalysisEvent.run gw)) AnalysisEvent.teardown) AnalysisEvent.delayElapsed).view.timers
      = v.timers := by
  simp [analysisStep, runAnalysis_of_success gw v rd jd r1 r2 r3 r4 hrd hjd h1 h2 h3 h4,
    elapse, App.handleNext]

/-- Witness for C8 as amended, on `sampleView` and `cannedGateway`: the
callback is still pending after the teardown. -/
theorem teardown_keeps_timer_witness :
    (analysisStep (analysisStep { view := sampleView, mounted := true }
        (AnalysisEvent.run cannedGateway)) AnalysisEvent.teardown).view.timers
      = sampleView.timers + 1 :=
  (teardown_keeps_timer cannedGateway sampleView sampleResume sampleJob _ _ _ _
    rfl rfl rfl rfl rfl rfl).1

/-- Counterexample to C8: on `sampleStage` a successful run, then teardown,
then the elapsing of the delay. After the teardown the component is unmounted
and the callback is still pending; when the delay elapses the callback runs
and `activeStep` goes from 2 to 3. -/
theorem teardown_does_not_cancel :
    (analysisStep (analysisStep sampleStage (AnalysisEvent.run cannedGateway))
        AnalysisEvent.teardown).mounted = false ∧
    (analysisStep (analysisStep sampleStage (AnalysisEvent.run cannedGateway))
        AnalysisEvent.teardown).view.timers = 1 ∧
    (analysisStep (analysisStep sampleStage (AnalysisEvent.run cannedGateway))
        AnalysisEvent.teardown).view.app.activeStep = 2 ∧
    (analysisStep (analysisStep (analysisStep sampleStage (AnalysisEvent.run cannedGateway))
        AnalysisEvent.teardown) AnalysisEvent.delayElapsed).view.timers = 0 ∧
    (analysisStep (analysisStep (analysisStep sampleStage (AnalysisEvent.run cannedGateway))
        AnalysisEvent.teardown) AnalysisEvent.delayElapsed).view.app.activeStep = 3 :=
  ⟨rfl, rfl, rfl, rfl, rfl⟩

/-- The effects of a run before its first `await` are the same on every
network. -/
theorem effectsBeforeAwait_eq (gw : Gateway) (resumeData : Option ResumeData)
    (jobData : Option FormData) :
    (performAnalysis gw resumeData jobData).takeWhile (fun e => !e.isCall) =
      effectsBeforeAwait resumeData jobData := by
  cases resumeData with
  | none =>
    cases jobData <;>
      simp [effectsBeforeAwait, performAnalysis, performAnalysisRun, bind, Run.andThen,
        Run.emit, Run.await, Run.deref, Run.tryCatch]
  | some rd =>
    cases jobData with
    | none =>
      simp [effectsBeforeAwait, performAnalysis, performAnalysisRun, bind, Run.andThen,
        Run.emit, Run.await, Run.deref, Run.tryCatch]
    | some jd =>
      have key : ∀ g : Gateway,
          (performAnalysis g (some rd) (some jd)).takeWhile (fun e => !e.isCall) =
            [Effect.setError JsVal.null, Effect.setCurrentStep "Analyzing your resume...",
             Effect.setProgress 25] := by
        intro g
        rcases firstFailure_cases g rd jd with ⟨k, e, hfail⟩ | ⟨r1, r2, r3, r4, h1, h2, h3, h4⟩
        · unfold firstFailure at hfail
          split at hfail
          · rename_i e1 h1
            rw [performAnalysis_fail1 g rd jd _ h1]; rfl
          · rename_i r1 h1
            split at hfail
            · rename_i e2 h2
              rw [performAnalysis_fail2 g rd jd _ _ h1 h2]; rfl
            · rename_i r2 h2
              split at hfail
              · rename_i e3 h3
                rw [performAnalysis_fail3 g rd jd _ _ _ h1 h2 h3]; rfl
              · rename_i r3 h3
                split at hfail
                · rename_i e4 h4
                  rw [performAnalysis_fail4 g rd jd _ _ _ _ h1 h2 h3 h4]; rfl
                · simp at hfail
        · rw [performAnalysis_ok g rd jd r1 r2 r3 r4 h1 h2 h3 h4]; rfl
      rw [key gw]
      unfold effectsBeforeAwait
      rw [key offline]

/-- A run is its effects before the first `await` followed by its effects from
the first gateway call on. -/
theorem performAnalysis_split (gw : Gateway) (resumeData : Option ResumeData)
    (jobData : Option FormData) :
    performAnalysis gw resumeData jobData =
      effectsBeforeAwait resumeData jobData ++ effectsFromAwait gw resumeData jobData := by
  rw [← effectsBeforeAwait_eq gw resumeData jobData]
  exact (List.takeWhile_append_dropWhile _ _).symm

/-- C10 fails on `overlappingUploads`. The wizard ends on the Results stage
with no run in flight; the session holds the resume of the second upload, and
`analysisResults` is the output of the run that read the resume of the first
upload. That run was started when the session still held the first resume,
before `resumeData` last changed; a run on the session's current data would
have stored another result. -/
theorem stale_results_after_overlapping_uploads :
    (uiRun overlappingUploads).app.activeStep = 3 ∧
    (uiRun overlappingUploads).runs = [] ∧
    (uiRun overlappingUploads).app.resumeData =
      some { file := fileB, text := JsVal.str "text of B", filename := JsVal.str "b.pdf" } ∧
    (uiRun overlappingUploads).app.analysisResults =
      some { resumeAnalysis := JsVal.obj [("analysis_of", JsVal.str "text of A")],
             atsScore := JsVal.obj [("ats_of", JsVal.str "text of A")],
             companyResearch := JsVal.obj [("research_of", JsVal.str "Acme")],
             recommendations := JsVal.obj [("recommended_for", JsVal.str "Senior Engineer")] } ∧
    resultsWritten (performAnalysis echoGateway (uiRun overlappingUploads).app.resumeData
        (uiRun overlappingUploads).app.jobData) =
      [{ resumeAnalysis := JsVal.obj [("analysis_of", JsVal.str "text of B")],
         atsScore := JsVal.obj [("ats_of", JsVal.str "text of B")],
         companyResearch := JsVal.obj [("research_of", JsVal.str "Acme")],
         recommendations := JsVal.obj [("recommended_for", JsVal.str "Senior Engineer")] }] ∧
    (uiRun (overlappingUploads.take 7)).app.resumeData =
      some { file := fileA, text := JsVal.str "text of A", filename := JsVal.str "a.pdf" } ∧
    (uiRun (overlappingUploads.take 7)).runs =
      [{ owner := 2,
         resumeData := some
           { file := fileA, text := JsVal.str "text of A", filename := JsVal.str "a.pdf" },
         jobData := some
           { jobRole := "Senior Engineer", companyName := "Acme", jobDescription := "" } }] :=
  ⟨rfl, rfl, rfl, rfl, rfl, rfl, rfl⟩

/-! ## The running application: invariants -/

/-- On present props the effects before the first `await` are the clearing of
the error and the label and checkpoint of step 1. -/
theorem effectsBeforeAwait_some (rd : ResumeData) (jd : FormData) :
    effectsBeforeAwait (some rd) (some jd) =
      [Effect.setError JsVal.null, Effect.setCurrentStep "Analyzing your resume...",
       Effect.setProgress 25] := by
  unfold effectsBeforeAwait
  rw [performAnalysis_fail1 offline rd jd _ rfl]
  rfl

/-- On present props a run issues a gateway call. -/
theorem performAnalysis_any_call (rd : ResumeData) (jd : FormData) :
    (performAnalysis offline (some rd) (some jd)).any Effect.isCall = true := by
  rw [performAnalysis_fail1 offline rd jd _ rfl]
  rfl

/-- A call of `performAnalysis` by the mounted component on present props:
the cells show step 1 and the run is in flight. -/
theorem startRun_some (s : Session) (loc : AnalysisLocal) (rd : ResumeData) (jd : FormData)
    (hv : s.view = Mounted.analysis loc)
    (hrd : s.app.resumeData = some rd) (hjd : s.app.jobData = some jd) :
    s.startRun =
      { s with
        view := Mounted.analysis
          { error := JsVal.null, progress := 25, currentStep := "Analyzing your resume..." },
        runs := s.runs ++ [{ owner := s.mountId, resumeData := some rd, jobData := some jd }] } := by
  unfold Session.startRun
  rw [hrd, hjd, performAnalysis_any_call rd jd, effectsBeforeAwait_some rd jd]
  simp [Session.applyEffects, hv, applyEffect]

/-- Effects change the session only through `setAnalysisResults`: the session
after a list of effects holds the last result written, if any. -/
theorem foldl_applyEffect_app (t : List Effect) (v : AnalysisView) :
    (t.foldl applyEffect v).app =
      match (resultsWritten t).getLast? with
      | some r => { v.app with analysisResults := some r }
      | none => v.app := by
  induction t generalizing v with
  | nil => rfl
  | cons e rest ih =>
    rw [List.foldl_cons, ih]
    cases e <;> simp only [resultsWritten, applyEffect]
    rename_i r
    cases h : (resultsWritten rest).getLast? with
    | none =>
      have : resultsWritten rest = [] := by
        cases hr : resultsWritten rest with
        | nil => rfl
        | cons a l => rw [hr] at h; simp [List.getLast?_cons_cons] at h
      simp [this]
    | some r2 =>
      have hne : resultsWritten rest ≠ [] := by
        intro hnil
        rw [hnil] at h
        simp at h
      rw [List.getLast?_cons, h]
      simp

/-- Effects change the pending callbacks only through `setTimeout`. -/
theorem foldl_applyEffect_timers (t : List Effect) (v : AnalysisView) :
    (t.foldl applyEffect v).timers = v.timers + (timersScheduled t).length := by
  induction t generalizing v with
  | nil => rfl
  | cons e rest ih =>
    rw [List.foldl_cons, ih]
    cases e <;> simp [timersScheduled, applyEffect]
    omega

/-- The `error` cell after a list of effects is the argument of the last
`setError`, or what it was when there is none. -/
theorem foldl_applyEffect_error (t : List Effect) (v : AnalysisView) :
    (t.foldl applyEffect v).loc.error = ((errorsSet t).getLast?).getD v.loc.error := by
  induction t generalizing v with
  | nil => rfl
  | cons e rest ih =>
    rw [List.foldl_cons, ih]
    cases e <;> simp only [errorsSet, applyEffect]
    rename_i x
    cases h : (errorsSet rest).getLast? with
    | none =>
      have : errorsSet rest = [] := by
        cases hr : errorsSet rest with
        | nil => rfl
        | cons a l => rw [hr] at h; simp [List.getLast?_cons_cons] at h
      simp [this]
    | some r2 =>
      rw [List.getLast?_cons, h]
      simp

/-- `resultsWritten` of a concatenation. -/
theorem resultsWritten_append (a b : List Effect) :
    resultsWritten (a ++ b) = resultsWritten a ++ resultsWritten b := by
  induction a with
  | nil => rfl
  | cons e rest ih => cases e <;> simp [resultsWritten, ih]

/-- `timersScheduled` of a concatenation. -/
theorem timersScheduled_append (a b : List Effect) :
    timersScheduled (a ++ b) = timersScheduled a ++ timersScheduled b := by
  induction a with
  | nil => rfl
  | cons e rest ih => cases e <;> simp [timersScheduled, ih]

/-- `errorsSet` of a concatenation. -/
theorem errorsSet_append (a b : List Effect) :
    errorsSet (a ++ b) = errorsSet a ++ errorsSet b := by
  induction a with
  | nil => rfl
  | cons e rest ih => cases e <;> simp [errorsSet, ih]

/-- What the effects from the first gateway call on write, on present props:
after a rejection one error message and nothing else; after four resolutions
one result and one scheduled callback, and no error. -/
theorem effectsFromAwait_cases (gw : Gateway) (rd : ResumeData) (jd : FormData) :
    (∃ e, resultsWritten (effectsFromAwait gw (some rd) (some jd)) = [] ∧
      timersScheduled (effectsFromAwait gw (some rd) (some jd)) = [] ∧
      errorsSet (effectsFromAwait gw (some rd) (some jd)) = [errorMessage e]) ∨
    (∃ r, resultsWritten (effectsFromAwait gw (some rd) (some jd)) = [r] ∧
      timersScheduled (effectsFromAwait gw (some rd) (some jd)) = [1000] ∧
      errorsSet (effectsFromAwait gw (some rd) (some jd)) = []) := by
  have hsplit := performAnalysis_split gw (some rd) (some jd)
  rw [effectsBeforeAwait_some rd jd] at hsplit
  have hres : resultsWritten (performAnalysis gw (some rd) (some jd)) =
      resultsWritten (effectsFromAwait gw (some rd) (some jd)) := by
    rw [hsplit, resultsWritten_append]
    rfl
  have htim : timersScheduled (performAnalysis gw (some rd) (some jd)) =
      timersScheduled (effectsFromAwait gw (some rd) (some jd)) := by
    rw [hsplit, timersScheduled_append]
    rfl
  have herr : errorsSet (performAnalysis gw (some rd) (some jd)) =
      JsVal.null :: errorsSet (effectsFromAwait gw (some rd) (some jd)) := by
    rw [hsplit, errorsSet_append]
    rfl
  rcases firstFailure_cases gw rd jd with ⟨k, e, hfail⟩ | ⟨r1, r2, r3, r4, h1, h2, h3, h4⟩
  · left
    obtain ⟨_, _, _, _, hr, ht, he⟩ := performAnalysis_of_failure gw rd jd k e hfail
    refine ⟨e, ?_, ?_, ?_⟩
    · rw [← hres, hr]
    · rw [← htim, ht]
    · rw [he] at herr
      exact (List.cons.inj herr).2.symm
  · right
    have hok := performAnalysis_ok gw rd jd r1 r2 r3 r4 h1 h2 h3 h4
    refine ⟨AnalysisResults.mk r1 r2 r3 r4, ?_, ?_, ?_⟩
    · rw [← hres, hok]; rfl
    · rw [← htim, hok]; rfl
    · rw [hok] at herr
      exact (List.cons.inj herr).2.symm

/-- Mounting on step 0 renders `UploadResume`; runs and callbacks are untouched. -/
theorem mount_upload (s : Session) (h : s.app.activeStep = 0) :
    ∃ loc, s.mount = { s with mountId := s.mountId + 1, view := Mounted.upload loc } := by
  unfold Session.mount
  simp only [h, getStepContent]
  exact ⟨_, rfl⟩

/-- Mounting on step 1 renders `JobDetails`; runs and callbacks are untouched. -/
theorem mount_jobDetails (s : Session) (h : s.app.activeStep = 1) :
    ∃ fd, s.mount = { s with mountId := s.mountId + 1, view := Mounted.jobDetails fd } := by
  unfold Session.mount
  simp only [h, getStepContent]
  exact ⟨_, rfl⟩

/-- Mounting on step 3 renders `Results`; runs and callbacks are untouched. -/
theorem mount_results (s : Session) (h : s.app.activeStep = 3) :
    s.mount = { s with mountId := s.mountId + 1, view := Mounted.results } := by
  unfold Session.mount
  simp only [h, getStepContent]
  rfl

/-- Mounting on step 2 with present props renders `Analysis` and starts a run. -/
theorem mount_analysis (s : Session) (rd : ResumeData) (jd : FormData)
    (h : s.app.activeStep = 2)
    (hrd : s.app.resumeData = some rd) (hjd : s.app.jobData = some jd) :
    s.mount =
      { s with
        mountId := s.mountId + 1,
        view := Mounted.analysis
          { error := JsVal.null, progress := 25, currentStep := "Analyzing your resume..." },
        runs := s.runs ++
          [{ owner := s.mountId + 1, resumeData := some rd, jobData := some jd }] } := by
  have hstage : getStepContent s.app.activeStep = Stage.analysis := by
    rw [h]
    rfl
  unfold Session.mount
  simp only [hstage]
  exact startRun_some _ AnalysisLocal.init rd jd rfl hrd hjd

/-- The start state satisfies the invariant. -/
theorem wf_init : Session.init.Wf := by
  refine ⟨⟨fun h => ?_, fun h => ?_⟩, rfl, rfl, rfl⟩
  · simp [Session.init, App.init] at h
  · simp [Session.init, App.init] at h

/-- Storing an upload response keeps the guards of the stages. -/
theorem uploadResolved_stageGuards (file result : JsVal) (app : App) (h : stageGuards app) :
    stageGuards (UploadResume.onDropResolved file result app) := by
  obtain ⟨hr, hj⟩ := h
  cases result <;>
    first
    | exact ⟨hr, hj⟩
    | exact ⟨fun _ => rfl, hj⟩

/-- Storing an upload response changes `resumeData` only. -/
theorem uploadResolved_frame (file result : JsVal) (app : App) :
    (UploadResume.onDropResolved file result app).activeStep = app.activeStep ∧
    (UploadResume.onDropResolved file result app).jobData = app.jobData ∧
    (UploadResume.onDropResolved file result app).analysisResults = app.analysisResults := by
  cases result <;> exact ⟨rfl, rfl, rfl⟩

/-- A handler that changes `activeStep` unmounts the old component and mounts
the one of the new step. -/
theorem navigate_of_ne (s : Session) (app : App) (h : app.activeStep ≠ s.app.activeStep) :
    s.navigate app = Session.mount { s with app := app } := by
  unfold Session.navigate
  rw [if_neg h]

/-- Every event preserves the invariant of the running application. -/
theorem uiStep_wf (s : Session) (ev : UiEvent) (h : s.Wf) : (uiStep s ev).Wf := by
  obtain ⟨app, view, mountId, uploads, runs, timers⟩ := s
  obtain ⟨hg, hview⟩ := h
  change stageGuards app at hg
  cases ev with
  | drop file =>
    cases view with
    | upload loc =>
      simp only [uiStep]
      split_ifs
      · exact ⟨hg, hview⟩
      · exact ⟨hg, hview⟩
    | jobDetails fd => exact ⟨hg, hview⟩
    | analysis loc => exact ⟨hg, hview⟩
    | results => exact ⟨hg, hview⟩
    | unknownStep => exact ⟨hg, hview⟩
  | uploadSettled i outcome =>
    simp only [uiStep]
    cases hup : uploads[i]? with
    | none => exact ⟨hg, hview⟩
    | some up =>
      cases outcome with
      | error e =>
        cases view with
        | upload loc =>
          refine ⟨hg, ?_⟩
          simp only []
          split_ifs <;> exact hview
        | jobDetails fd => exact ⟨hg, hview⟩
        | analysis loc => exact ⟨hg, hview⟩
        | results => exact ⟨hg, hview⟩
        | unknownStep => exact ⟨hg, hview⟩
      | ok result =>
        have hg2 := uploadResolved_stageGuards up.file result app hg
        obtain ⟨hstep, _, hres⟩ := uploadResolved_frame up.file result app
        cases view with
        | upload loc =>
          refine ⟨hg2, ?_⟩
          simp only []
          split_ifs <;> exact ⟨hstep.trans hview.1, hview.2⟩
        | jobDetails fd => exact ⟨hg2, hstep.trans hview.1, hview.2⟩
        | analysis loc =>
          refine ⟨hg2, hstep.trans hview.1, ?_⟩
          rcases hview.2 with h1 | h2 | ⟨h3, h4, h5, h6⟩
          · exact Or.inl h1
          · exact Or.inr (Or.inl h2)
          · exact Or.inr (Or.inr ⟨h3, h4, h5, hres.symm ▸ h6⟩)
        | results =>
          exact ⟨hg2, hstep.trans hview.1, hview.2.1, hview.2.2.1, hres.symm ▸ hview.2.2.2⟩
        | unknownStep => exact hview.elim
  | uploadNext =>
    cases view with
    | upload loc =>
      simp only [uiStep]
      split_ifs with hcond
      · obtain ⟨h0, hruns, htimers⟩ := hview
        simp only at h0 hruns htimers
        have hnext : UploadResume.handleNext app = App.handleNext app := by
          unfold UploadResume.handleNext
          rw [if_pos hcond.1]
        rw [hnext, navigate_of_ne _ _ (by simp [App.handleNext])]
        obtain ⟨fd, hm⟩ := mount_jobDetails
          { app := App.handleNext app, view := Mounted.upload loc, mountId := mountId,
            uploads := uploads, runs := runs, timers := timers }
          (by simp [App.handleNext, h0])
        rw [hm]
        refine ⟨⟨fun _ => hcond.1, fun h2 => ?_⟩, ?_, hruns, htimers⟩
        · simp [App.handleNext, h0] at h2
        · simp [App.handleNext, h0]
      · exact ⟨hg, hview⟩
    | jobDetails fd => exact ⟨hg, hview⟩
    | analysis loc => exact ⟨hg, hview⟩
    | results => exact ⟨hg, hview⟩
    | unknownStep => exact ⟨hg, hview⟩
  | jobChange field value =>
    cases view with
    | upload loc => exact ⟨hg, hview⟩
    | jobDetails fd => exact ⟨hg, hview⟩
    | analysis loc => exact ⟨hg, hview⟩
    | results => exact ⟨hg, hview⟩
    | unknownStep => exact ⟨hg, hview⟩
  | jobNext =>
    cases view with
    | upload loc => exact ⟨hg, hview⟩
    | jobDetails fd =>
      simp only [uiStep]
      split_ifs with hcond
      · obtain ⟨h1, hruns, htimers⟩ := hview
        simp only at h1 hruns htimers
        have hnext : JobDetails.handleNext fd app =
            App.handleNext { app with jobData := some fd } := by
          unfold JobDetails.handleNext
          rw [if_pos hcond]
        have hsome := hg.1 (by omega)
        obtain ⟨rd, hrd⟩ := Option.isSome_iff_exists.mp hsome
        rw [hnext, navigate_of_ne _ _ (by simp [App.handleNext])]
        have hm := mount_analysis
          { app := App.handleNext { app with jobData := some fd },
            view := Mounted.jobDetails fd, mountId := mountId,
            uploads := uploads, runs := runs, timers := timers }
          rd fd (by simp [App.handleNext, h1]) hrd rfl
        change (Session.mount
          { app := App.handleNext { app with jobData := some fd },
            view := Mounted.jobDetails fd, mountId := mountId,
            uploads := uploads, runs := runs, timers := timers }).Wf
        rw [hm]
        refine ⟨⟨fun _ => hsome, fun _ => ⟨fd, rfl, hcond.1, hcond.2⟩⟩, ?_, ?_⟩
        · simp [App.handleNext, h1]
        · left
          exact ⟨{ owner := mountId + 1, resumeData := some rd, jobData := some fd },
            by simp [hruns], rfl, rfl, rfl, rfl, htimers⟩
      · exact ⟨hg, hview⟩
    | analysis loc => exact ⟨hg, hview⟩
    | results => exact ⟨hg, hview⟩
    | unknownStep => exact ⟨hg, hview⟩
  | jobBack =>
    cases view with
    | upload loc => exact ⟨hg, hview⟩
    | jobDetails fd =>
      simp only [uiStep]
      obtain ⟨h1, hruns, htimers⟩ := hview
      simp only at h1 hruns htimers
      rw [navigate_of_ne _ _ (by simp [App.handleBack])]
      obtain ⟨loc, hm⟩ := mount_upload
        { app := App.handleBack app, view := Mounted.jobDetails fd, mountId := mountId,
          uploads := uploads, runs := runs, timers := timers }
        (by simp [App.handleBack, h1])
      rw [hm]
      refine ⟨⟨fun h => ?_, fun h => ?_⟩, ?_, hruns, htimers⟩
      · simp [App.handleBack, h1] at h
      · simp [App.handleBack, h1] at h
      · simp [App.handleBack, h1]
    | analysis loc => exact ⟨hg, hview⟩
    | results => exact ⟨hg, hview⟩
    | unknownStep => exact ⟨hg, hview⟩
  | analysisSettled i gw =>
    simp only [uiStep]
    cases view with
    | upload loc =>
      obtain ⟨h0, hruns, htimers⟩ := hview
      simp only at hruns
      subst hruns
      exact ⟨hg, h0, rfl, htimers⟩
    | jobDetails fd =>
      obtain ⟨h1, hruns, htimers⟩ := hview
      simp only at hruns
      subst hruns
      exact ⟨hg, h1, rfl, htimers⟩
    | results =>
      obtain ⟨h3, hruns, hrest⟩ := hview
      simp only at hruns
      subst hruns
      exact ⟨hg, h3, rfl, hrest⟩
    | unknownStep => exact hview.elim
    | analysis loc =>
      obtain ⟨h2, hsub⟩ := hview
      simp only at h2 hsub
      rcases hsub with ⟨r, hruns, howner, hrd, hjd, herr, htimers⟩ | ⟨hruns, htimers⟩ |
        ⟨hruns, htimers, herr, hres⟩
      · subst hruns
        subst htimers
        cases i with
        | succ n => exact ⟨hg, h2, Or.inl ⟨r, rfl, howner, hrd, hjd, herr, rfl⟩⟩
        | zero =>
          obtain ⟨rd, hrd⟩ := Option.isSome_iff_exists.mp hrd
          obtain ⟨jd, hjd⟩ := Option.isSome_iff_exists.mp hjd
          simp only [List.getElem?_cons_zero, List.eraseIdx_cons_zero, Session.applyEffects,
            hrd, hjd, howner, if_true]
          have happ := foldl_applyEffect_app (effectsFromAwait gw (some rd) (some jd))
            { app := app, loc := loc, timers := 0 }
          have htim := foldl_applyEffect_timers (effectsFromAwait gw (some rd) (some jd))
            { app := app, loc := loc, timers := 0 }
          have herr2 := foldl_applyEffect_error (effectsFromAwait gw (some rd) (some jd))
            { app := app, loc := loc, timers := 0 }
          rcases effectsFromAwait_cases gw rd jd with ⟨e, hr, ht, he⟩ | ⟨res, hr, ht, he⟩
          · rw [hr] at happ
            rw [ht] at htim
            refine ⟨?_, ?_, Or.inr (Or.inl ⟨rfl, ?_⟩)⟩
            · simp only [happ]
              exact hg
            · simp only [happ]
              exact h2
            · simp only [htim]
              rfl
          · rw [hr] at happ
            rw [ht] at htim
            rw [he] at herr2
            refine ⟨?_, ?_, Or.inr (Or.inr ⟨rfl, ?_, ?_, ?_⟩)⟩
            · simp only [happ]
              exact hg
            · simp only [happ]
              exact h2
            · simp only [htim]
              rfl
            · simp only [herr2]
              exact herr
            · simp only [happ]
              rfl
      · subst hruns
        exact ⟨hg, h2, Or.inr (Or.inl ⟨rfl, htimers⟩)⟩
      · subst hruns
        exact ⟨hg, h2, Or.inr (Or.inr ⟨rfl, htimers, herr, hres⟩)⟩
  | analysisRetry =>
    cases view with
    | upload loc => exact ⟨hg, hview⟩
    | jobDetails fd => exact ⟨hg, hview⟩
    | results => exact ⟨hg, hview⟩
    | unknownStep => exact hview.elim
    | analysis loc =>
      simp only [uiStep]
      split_ifs with hshown
      · obtain ⟨h2, hsub⟩ := hview
        simp only at h2 hsub
        rcases hsub with ⟨r, _, _, _, _, herr, _⟩ | ⟨hruns, htimers⟩ | ⟨_, _, herr, _⟩
        · rw [herr] at hshown
          exact absurd hshown (by decide)
        · obtain ⟨rd, hrd⟩ := Option.isSome_iff_exists.mp (hg.1 (by omega))
          obtain ⟨jd, hjd, _, _⟩ := hg.2 (by omega)
          rw [startRun_some _ loc rd jd rfl hrd hjd]
          refine ⟨hg, h2, Or.inl ⟨{ owner := mountId, resumeData := some rd, jobData := some jd },
            by simp [hruns], rfl, rfl, rfl, rfl, htimers⟩⟩
        · rw [herr] at hshown
          exact absurd hshown (by decide)
      · exact ⟨hg, hview⟩
  | analysisBack =>
    cases view with
    | upload loc => exact ⟨hg, hview⟩
    | jobDetails fd => exact ⟨hg, hview⟩
    | results => exact ⟨hg, hview⟩
    | unknownStep => exact hview.elim
    | analysis loc =>
      simp only [uiStep]
      split_ifs with hshown
      · obtain ⟨h2, hsub⟩ := hview
        simp only at h2 hsub
        rcases hsub with ⟨r, _, _, _, _, herr, _⟩ | ⟨hruns, htimers⟩ | ⟨_, _, herr, _⟩
        · rw [herr] at hshown
          exact absurd hshown (by decide)
        · rw [navigate_of_ne _ _ (by simp [App.handleBack])]
          obtain ⟨fd, hm⟩ := mount_jobDetails
            { app := App.handleBack app, view := Mounted.analysis loc, mountId := mountId,
              uploads := uploads, runs := runs, timers := timers }
            (by simp [App.handleBack, h2])
          rw [hm]
          refine ⟨⟨fun _ => hg.1 (by omega), fun h => ?_⟩, ?_, hruns, htimers⟩
          · simp [App.handleBack, h2] at h
          · simp [App.handleBack, h2]
        · rw [herr] at hshown
          exact absurd hshown (by decide)
      · exact ⟨hg, hview⟩
  | delayElapsed =>
    simp only [uiStep]
    split_ifs with hpending
    · cases view with
      | upload loc => exact absurd hview.2.2 (by simp only; omega)
      | jobDetails fd => exact absurd hview.2.2 (by simp only; omega)
      | results => exact absurd hview.2.2.1 (by simp only; omega)
      | unknownStep => exact hview.elim
      | analysis loc =>
        obtain ⟨h2, hsub⟩ := hview
        simp only at h2 hsub hpending
        rcases hsub with ⟨r, _, _, _, _, _, htimers⟩ | ⟨_, htimers⟩ | ⟨hruns, htimers, _, hres⟩
        · omega
        · omega
        · rw [navigate_of_ne _ _ (by simp [App.handleNext])]
          have hm := mount_results
            { app := App.handleNext app, view := Mounted.analysis loc, mountId := mountId,
              uploads := uploads, runs := runs, timers := timers - 1 }
            (by simp [App.handleNext, h2])
          change (Session.mount
            { app := App.handleNext app, view := Mounted.analysis loc, mountId := mountId,
              uploads := uploads, runs := runs, timers := timers - 1 }).Wf
          rw [hm]
          refine ⟨⟨fun _ => hg.1 (by omega), fun _ => hg.2 (by omega)⟩, ?_, hruns, ?_, hres⟩
          · simp [App.handleNext, h2]
          · simp only
            omega
    · exact ⟨hg, hview⟩
  | resultsBack =>
    cases view with
    | upload loc => exact ⟨hg, hview⟩
    | jobDetails fd => exact ⟨hg, hview⟩
    | analysis loc => exact ⟨hg, hview⟩
    | unknownStep => exact hview.elim
    | results =>
      simp only [uiStep]
      obtain ⟨h3, hruns, htimers, hres⟩ := hview
      simp only at h3 hruns htimers hres
      obtain ⟨rd, hrd⟩ := Option.isSome_iff_exists.mp (hg.1 (by omega))
      obtain ⟨jd, hjd, hrole, hcompany⟩ := hg.2 (by omega)
      rw [navigate_of_ne _ _ (by simp [App.handleBack])]
      have hm := mount_analysis
        { app := App.handleBack app, view := Mounted.results, mountId := mountId,
          uploads := uploads, runs := runs, timers := timers }
        rd jd (by simp [App.handleBack, h3]) hrd hjd
      change (Session.mount
        { app := App.handleBack app, view := Mounted.results, mountId := mountId,
          uploads := uploads, runs := runs, timers := timers }).Wf
      rw [hm]
      refine ⟨⟨fun _ => hg.1 (by omega), fun _ => ⟨jd, hjd, hrole, hcompany⟩⟩, ?_, ?_⟩
      · simp [App.handleBack, h3]
      · left
        exact ⟨{ owner := mountId + 1, resumeData := some rd, jobData := some jd },
          by simp [hruns], rfl, rfl, rfl, rfl, htimers⟩
  | resultsReset =>
    cases view with
    | upload loc => exact ⟨hg, hview⟩
    | jobDetails fd => exact ⟨hg, hview⟩
    | analysis loc => exact ⟨hg, hview⟩
    | unknownStep => exact hview.elim
    | results =>
      simp only [uiStep]
      split_ifs with hsome
      · obtain ⟨h3, hruns, htimers, hres⟩ := hview
        simp only at h3 hruns htimers hres
        rw [navigate_of_ne _ _ (by simp [App.handleReset, h3])]
        obtain ⟨loc, hm⟩ := mount_upload
          { app := App.handleReset app, view := Mounted.results, mountId := mountId,
            uploads := uploads, runs := runs, timers := timers }
          rfl
        rw [hm]
        refine ⟨⟨fun h => ?_, fun h => ?_⟩, rfl, hruns, htimers⟩
        · simp [App.handleReset] at h
        · simp [App.handleReset] at h
      · exact ⟨hg, hview⟩

/-- The invariant holds in every state the running application reaches. -/
theorem foldl_uiStep_wf (events : List UiEvent) (s : Session) (h : s.Wf) :
    (events.foldl uiStep s).Wf := by
  induction events generalizing s with
  | nil => exact h
  | cons ev rest ih => exact ih _ (uiStep_wf s ev h)

/-- The invariant holds in every state reached from the start. -/
theorem uiRun_wf (events : List UiEvent) : (uiRun events).Wf :=
  foldl_uiStep_wf events Session.init wf_init

/-- In a state that satisfies the invariant `activeStep` is 0, 1, 2 or 3, and
on step 3 the Results stage is rendered with a result present. -/
theorem wf_activeStep (s : Session) (h : s.Wf) :
    (s.app.activeStep = 0 ∨ s.app.activeStep = 1 ∨ s.app.activeStep = 2 ∨
      s.app.activeStep = 3) ∧
    (s.app.activeStep = 3 → s.view = Mounted.results ∧ s.app.analysisResults.isSome = true) := by
  obtain ⟨app, view, mountId, uploads, runs, timers⟩ := s
  obtain ⟨_, hview⟩ := h
  cases view with
  | upload loc =>
    refine ⟨Or.inl hview.1, fun h3 => ?_⟩
    have := hview.1
    simp only at this h3
    omega
  | jobDetails fd =>
    refine ⟨Or.inr (Or.inl hview.1), fun h3 => ?_⟩
    have := hview.1
    simp only at this h3
    omega
  | analysis loc =>
    refine ⟨Or.inr (Or.inr (Or.inl hview.1)), fun h3 => ?_⟩
    have := hview.1
    simp only at this h3
    omega
  | results => exact ⟨Or.inr (Or.inr (Or.inr hview.1)), fun _ => ⟨rfl, hview.2.2.2⟩⟩
  | unknownStep => exact hview.elim

/-- The results written by a run on present props are written after the first
`await`. -/
theorem resultsWritten_effectsFromAwait (gw : Gateway) (rd : ResumeData) (jd : FormData) :
    resultsWritten (effectsFromAwait gw (some rd) (some jd)) =
      resultsWritten (performAnalysis gw (some rd) (some jd)) := by
  have hsplit := performAnalysis_split gw (some rd) (some jd)
  rw [effectsBeforeAwait_some rd jd] at hsplit
  conv => rhs; rw [hsplit, resultsWritten_append]
  rfl

/-- Along events without overlapping uploads the freshness invariant is
preserved. -/
theorem uiStep_fresh (gw : Gateway) (s : Session) (ev : UiEvent) (hwf : s.Wf)
    (hf : s.Fresh gw)
    (hev : match ev with
      | UiEvent.drop _ => s.uploads = []
      | UiEvent.analysisSettled _ g => g = gw
      | _ => True) :
    (uiStep s ev).Fresh gw := by
  obtain ⟨app, view, mountId, uploads, runs, timers⟩ := s
  obtain ⟨hg, hview⟩ := hwf
  obtain ⟨hU, hF⟩ := hf
  change stageGuards app at hg
  simp only at hU
  cases ev with
  | drop file =>
    simp only at hev
    subst hev
    cases view with
    | upload loc =>
      simp only [uiStep]
      split_ifs
      · exact ⟨Or.inr ⟨_, _, rfl, rfl, rfl⟩, trivial⟩
      · exact ⟨hU, hF⟩
    | jobDetails fd => exact ⟨hU, hF⟩
    | analysis loc => exact ⟨hU, hF⟩
    | results => exact ⟨hU, hF⟩
    | unknownStep => exact ⟨hU, hF⟩
  | uploadSettled i outcome =>
    simp only [uiStep]
    rcases hU with hnil | ⟨u, loc, hu, hv, hl⟩
    · subst hnil
      exact ⟨Or.inl rfl, hF⟩
    · subst hu
      subst hv
      cases i with
      | succ n => exact ⟨Or.inr ⟨u, loc, rfl, rfl, hl⟩, hF⟩
      | zero =>
        refine ⟨Or.inl rfl, ?_⟩
        simp only [List.getElem?_cons_zero]
        split_ifs <;> trivial
  | uploadNext =>
    cases view with
    | upload loc =>
      simp only [uiStep]
      split_ifs with hcond
      · have hnil : uploads = [] := by
          rcases hU with hnil | ⟨u, loc2, _, hv, hl⟩
          · exact hnil
          · cases hv
            rw [hcond.2] at hl
            exact absurd hl (by decide)
        obtain ⟨h0, _, _⟩ := hview
        simp only at h0
        have hnext : UploadResume.handleNext app = App.handleNext app := by
          unfold UploadResume.handleNext
          rw [if_pos hcond.1]
        rw [hnext, navigate_of_ne _ _ (by simp [App.handleNext])]
        obtain ⟨fd, hm⟩ := mount_jobDetails
          { app := App.handleNext app, view := Mounted.upload loc, mountId := mountId,
            uploads := uploads, runs := runs, timers := timers }
          (by simp [App.handleNext, h0])
        rw [hm]
        exact ⟨Or.inl hnil, trivial⟩
      · exact ⟨hU, hF⟩
    | jobDetails fd => exact ⟨hU, hF⟩
    | analysis loc => exact ⟨hU, hF⟩
    | results => exact ⟨hU, hF⟩
    | unknownStep => exact ⟨hU, hF⟩
  | jobChange field value =>
    cases view with
    | upload loc => exact ⟨hU, hF⟩
    | jobDetails fd =>
      refine ⟨Or.inl ?_, trivial⟩
      rcases hU with hnil | ⟨u, loc2, _, hv, _⟩
      · exact hnil
      · cases hv
    | analysis loc => exact ⟨hU, hF⟩
    | results => exact ⟨hU, hF⟩
    | unknownStep => exact ⟨hU, hF⟩
  | jobNext =>
    cases view with
    | upload loc => exact ⟨hU, hF⟩
    | jobDetails fd =>
      simp only [uiStep]
      split_ifs with hcond
      · have hnil : uploads = [] := by
          rcases hU with hnil | ⟨u, loc2, _, hv, _⟩
          · exact hnil
          · cases hv
        obtain ⟨h1, hruns, htimers⟩ := hview
        simp only at h1 hruns htimers
        subst hruns
        subst htimers
        have hnext : JobDetails.handleNext fd app =
            App.handleNext { app with jobData := some fd } := by
          unfold JobDetails.handleNext
          rw [if_pos hcond]
        obtain ⟨rd, hrd⟩ := Option.isSome_iff_exists.mp (hg.1 (by omega))
        rw [hnext, navigate_of_ne _ _ (by simp [App.handleNext])]
        have hm := mount_analysis
          { app := App.handleNext { app with jobData := some fd },
            view := Mounted.jobDetails fd, mountId := mountId,
            uploads := uploads, runs := [], timers := 0 }
          rd fd (by simp [App.handleNext, h1]) hrd rfl
        change (Session.mount
          { app := App.handleNext { app with jobData := some fd },
            view := Mounted.jobDetails fd, mountId := mountId,
            uploads := uploads, runs := [], timers := 0 }).Fresh gw
        rw [hm]
        refine ⟨Or.inl hnil, ?_, ?_⟩
        · intro r hr
          simp only [List.nil_append, List.mem_singleton] at hr
          subst hr
          exact ⟨hrd.symm, rfl⟩
        · intro h
          simp at h
      · exact ⟨hU, hF⟩
    | analysis loc => exact ⟨hU, hF⟩
    | results => exact ⟨hU, hF⟩
    | unknownStep => exact ⟨hU, hF⟩
  | jobBack =>
    cases view with
    | upload loc => exact ⟨hU, hF⟩
    | jobDetails fd =>
      simp only [uiStep]
      have hnil : uploads = [] := by
        rcases hU with hnil | ⟨u, loc2, _, hv, _⟩
        · exact hnil
        · cases hv
      obtain ⟨h1, _, _⟩ := hview
      simp only at h1
      rw [navigate_of_ne _ _ (by simp [App.handleBack])]
      obtain ⟨loc, hm⟩ := mount_upload
        { app := App.handleBack app, view := Mounted.jobDetails fd, mountId := mountId,
          uploads := uploads, runs := runs, timers := timers }
        (by simp [App.handleBack, h1])
      rw [hm]
      exact ⟨Or.inl hnil, trivial⟩
    | analysis loc => exact ⟨hU, hF⟩
    | results => exact ⟨hU, hF⟩
    | unknownStep => exact ⟨hU, hF⟩
  | analysisSettled i g =>
    simp only at hev
    subst hev
    simp only [uiStep]
    cases view with
    | upload loc =>
      have hruns := hview.2.1
      simp only at hruns
      subst hruns
      exact ⟨hU, hF⟩
    | jobDetails fd =>
      have hruns := hview.2.1
      simp only at hruns
      subst hruns
      exact ⟨hU, hF⟩
    | results =>
      have hruns := hview.2.1
      simp only at hruns
      subst hruns
      exact ⟨hU, hF⟩
    | unknownStep => exact hview.elim
    | analysis loc =>
      have hnil : uploads = [] := by
        rcases hU with hnil | ⟨u, loc2, _, hv, _⟩
        · exact hnil
        · cases hv
      obtain ⟨h2, hsub⟩ := hview
      simp only at h2 hsub hF
      rcases hsub with ⟨r, hruns, howner, _, _, _, htimers⟩ | ⟨hruns, _⟩ | ⟨hruns, _⟩
      · subst hruns
        subst htimers
        cases i with
        | succ n => exact ⟨Or.inl hnil, hF⟩
        | zero =>
          obtain ⟨hrrd, hrjd⟩ := hF.1 r (List.mem_singleton.mpr rfl)
          obtain ⟨rd, hrd⟩ := Option.isSome_iff_exists.mp (hg.1 (by omega))
          obtain ⟨jd, hjd, _, _⟩ := hg.2 (by omega)
          rw [hrd] at hrrd
          rw [hjd] at hrjd
          simp only [List.getElem?_cons_zero, List.eraseIdx_cons_zero, Session.applyEffects,
            hrrd, hrjd, howner, if_true]
          have happ := foldl_applyEffect_app (effectsFromAwait g (some rd) (some jd))
            { app := app, loc := loc, timers := 0 }
          have htim := foldl_applyEffect_timers (effectsFromAwait g (some rd) (some jd))
            { app := app, loc := loc, timers := 0 }
          have hsame := resultsWritten_effectsFromAwait g rd jd
          refine ⟨Or.inl hnil, ?_, ?_⟩
          · intro r2 hr2
            simp at hr2
          · intro hone
            rcases effectsFromAwait_cases g rd jd with ⟨e, hr, ht, _⟩ | ⟨res, hr, ht, _⟩
            · rw [htim, ht] at hone
              simp at hone
            · rw [hr] at happ
              refine ⟨res, ?_, ?_⟩
              · rw [happ]
                rfl
              · rw [happ]
                simp only [List.getLast?_singleton]
                rw [hrd, hjd, ← hsame, hr]
      · subst hruns
        exact ⟨Or.inl hnil, hF⟩
      · subst hruns
        exact ⟨Or.inl hnil, hF⟩
  | analysisRetry =>
    cases view with
    | upload loc => exact ⟨hU, hF⟩
    | jobDetails fd => exact ⟨hU, hF⟩
    | results => exact ⟨hU, hF⟩
    | unknownStep => exact hview.elim
    | analysis loc =>
      simp only [uiStep]
      split_ifs with hshown
      · have hnil : uploads = [] := by
          rcases hU with hnil | ⟨u, loc2, _, hv, _⟩
          · exact hnil
          · cases hv
        obtain ⟨h2, hsub⟩ := hview
        simp only at h2 hsub
        rcases hsub with ⟨r, _, _, _, _, herr, _⟩ | ⟨hruns, htimers⟩ | ⟨_, _, herr, _⟩
        · rw [herr] at hshown
          exact absurd hshown (by decide)
        · subst hruns
          subst htimers
          obtain ⟨rd, hrd⟩ := Option.isSome_iff_exists.mp (hg.1 (by omega))
          obtain ⟨jd, hjd, _, _⟩ := hg.2 (by omega)
          rw [startRun_some _ loc rd jd rfl hrd hjd]
          refine ⟨Or.inl hnil, ?_, ?_⟩
          · intro r hr
            simp only [List.nil_append, List.mem_singleton] at hr
            subst hr
            exact ⟨hrd.symm, hjd.symm⟩
          · intro h
            simp at h
        · rw [herr] at hshown
          exact absurd hshown (by decide)
      · exact ⟨hU, hF⟩
  | analysisBack =>
    cases view with
    | upload loc => exact ⟨hU, hF⟩
    | jobDetails fd => exact ⟨hU, hF⟩
    | results => exact ⟨hU, hF⟩
    | unknownStep => exact hview.elim
    | analysis loc =>
      simp only [uiStep]
      split_ifs with hshown
      · have hnil : uploads = [] := by
          rcases hU with hnil | ⟨u, loc2, _, hv, _⟩
          · exact hnil
          · cases hv
        have h2 := hview.1
        simp only at h2
        rw [navigate_of_ne _ _ (by simp [App.handleBack])]
        obtain ⟨fd, hm⟩ := mount_jobDetails
          { app := App.handleBack app, view := Mounted.analysis loc, mountId := mountId,
            uploads := uploads, runs := runs, timers := timers }
          (by simp [App.handleBack, h2])
        rw [hm]
        exact ⟨Or.inl hnil, trivial⟩
      · exact ⟨hU, hF⟩
  | delayElapsed =>
    simp only [uiStep]
    split_ifs with hpending
    · cases view with
      | upload loc => exact absurd hview.2.2 (by simp only; omega)
      | jobDetails fd => exact absurd hview.2.2 (by simp only; omega)
      | results => exact absurd hview.2.2.1 (by simp only; omega)
      | unknownStep => exact hview.elim
      | analysis loc =>
        have hnil : uploads = [] := by
          rcases hU with hnil | ⟨u, loc2, _, hv, _⟩
          · exact hnil
          · cases hv
        obtain ⟨h2, hsub⟩ := hview
        simp only at h2 hsub hpending hF
        rcases hsub with ⟨r, _, _, _, _, _, htimers⟩ | ⟨_, htimers⟩ | ⟨hruns, htimers, _, _⟩
        · omega
        · omega
        · rw [navigate_of_ne _ _ (by simp [App.handleNext])]
          have hm := mount_results
            { app := App.handleNext app, view := Mounted.analysis loc, mountId := mountId,
              uploads := uploads, runs := runs, timers := timers - 1 }
            (by simp [App.handleNext, h2])
          change (Session.mount
            { app := App.handleNext app, view := Mounted.analysis loc, mountId := mountId,
              uploads := uploads, runs := runs, timers := timers - 1 }).Fresh gw
          rw [hm]
          exact ⟨Or.inl hnil, hF.2 htimers⟩
    · exact ⟨hU, hF⟩
  | resultsBack =>
    cases view with
    | upload loc => exact ⟨hU, hF⟩
    | jobDetails fd => exact ⟨hU, hF⟩
    | analysis loc => exact ⟨hU, hF⟩
    | unknownStep => exact hview.elim
    | results =>
      simp only [uiStep]
      have hnil : uploads = [] := by
        rcases hU with hnil | ⟨u, loc2, _, hv, _⟩
        · exact hnil
        · cases hv
      obtain ⟨h3, hruns, htimers, _⟩ := hview
      simp only at h3 hruns htimers
      subst hruns
      subst htimers
      obtain ⟨rd, hrd⟩ := Option.isSome_iff_exists.mp (hg.1 (by omega))
      obtain ⟨jd, hjd, _, _⟩ := hg.2 (by omega)
      rw [navigate_of_ne _ _ (by simp [App.handleBack])]
      have hm := mount_analysis
        { app := App.handleBack app, view := Mounted.results, mountId := mountId,
          uploads := uploads, runs := [], timers := 0 }
        rd jd (by simp [App.handleBack, h3]) hrd hjd
      change (Session.mount
        { app := App.handleBack app, view := Mounted.results, mountId := mountId,
          uploads := uploads, runs := [], timers := 0 }).Fresh gw
      rw [hm]
      refine ⟨Or.inl hnil, ?_, ?_⟩
      · intro r hr
        simp only [List.nil_append, List.mem_singleton] at hr
        subst hr
        exact ⟨hrd.symm, hjd.symm⟩
      · intro h
        simp at h
  | resultsReset =>
    cases view with
    | upload loc => exact ⟨hU, hF⟩
    | jobDetails fd => exact ⟨hU, hF⟩
    | analysis loc => exact ⟨hU, hF⟩
    | unknownStep => exact hview.elim
    | results =>
      simp only [uiStep]
      split_ifs with hsome
      · have hnil : uploads = [] := by
          rcases hU with hnil | ⟨u, loc2, _, hv, _⟩
          · exact hnil
          · cases hv
        have h3 := hview.1
        simp only at h3
        rw [navigate_of_ne _ _ (by simp [App.handleReset, h3])]
        obtain ⟨loc, hm⟩ := mount_upload
          { app := App.handleReset app, view := Mounted.results, mountId := mountId,
            uploads := uploads, runs := runs, timers := timers }
          rfl
        rw [hm]
        exact ⟨Or.inl hnil, trivial⟩
      · exact ⟨hU, hF⟩

/-- Both invariants hold along every sequence of events without overlapping
uploads. -/
theorem foldl_uiStep_fresh (gw : Gateway) (events : List UiEvent) (s : Session)
    (hwf : s.Wf) (hf : s.Fresh gw) (hserial : serialFrom gw s events) :
    (events.foldl uiStep s).Wf ∧ (events.foldl uiStep s).Fresh gw := by
  induction events generalizing s with
  | nil => exact ⟨hwf, hf⟩
  | cons ev rest ih =>
    obtain ⟨hev, hrest⟩ := hserial
    exact ih _ (uiStep_wf s ev hwf) (uiStep_fresh gw s ev hwf hf hev) hrest

/-- The start state satisfies the freshness invariant. -/
theorem fresh_init (gw : Gateway) : Session.init.Fresh gw :=
  ⟨Or.inl rfl, trivial⟩

/-- Freshness when uploads do not overlap: along every sequence of events in
which no file is dropped while an upload is in flight, a state on the Results
stage holds the result that a run on the session's current `resumeData` and
`jobData` stores. -/
theorem fresh_results_without_overlap (gw : Gateway) (events : List UiEvent)
    (hserial : serialFrom gw Session.init events)
    (h3 : (uiRun events).app.activeStep = 3) :
    freshResults gw (uiRun events).app := by
  obtain ⟨hwf, hf⟩ := foldl_uiStep_fresh gw events Session.init wf_init (fresh_init gw) hserial
  have hview := ((wf_activeStep _ hwf).2 h3).1
  have hmatch := hf.2
  unfold uiRun at hview
  rw [hview] at hmatch
  exact hmatch

/-- The single upload of `singleUpload` ends on the Results stage with a fresh
result. -/
theorem fresh_results_singleUpload :
    serialFrom echoGateway Session.init singleUpload ∧
    (uiRun singleUpload).app.activeStep = 3 ∧
    freshResults echoGateway (uiRun singleUpload).app :=
  ⟨⟨rfl, trivial, trivial, trivial, trivial, trivial, rfl, trivial, trivial⟩, rfl,
    fresh_results_without_overlap echoGateway singleUpload
      ⟨rfl, trivial, trivial, trivial, trivial, trivial, rfl, trivial, trivial⟩ rfl⟩

/-- The guards of the stages, the range of `activeStep` and the presence of a
result on the Results stage, in every state the running application reaches. -/
theorem uiRun_invariants (events : List UiEvent) :
    (1 ≤ (uiRun events).app.activeStep → (uiRun events).app.resumeData.isSome = true) ∧
    (2 ≤ (uiRun events).app.activeStep → jobDataComplete (uiRun events).app) ∧
    (0 ≤ (uiRun events).app.activeStep ∧ (uiRun events).app.activeStep ≤ 3) ∧
    (getStepContent (uiRun events).app.activeStep ≠ Stage.unknownStep) ∧
    ((uiRun events).app.activeStep = 3 → (uiRun events).app.analysisResults.isSome = true) := by
  have hwf := uiRun_wf events
  obtain ⟨hrange, hres⟩ := wf_activeStep _ hwf
  refine ⟨hwf.1.1, hwf.1.2, ?_, ?_, fun h3 => (hres h3).2⟩
  · rcases hrange with h | h | h | h <;> rw [h] <;> decide
  · rcases hrange with h | h | h | h <;> rw [h] <;> decide

/-- The state after an invocation of `handleGenerateDocuments` whose call
resolves with `d`: `documents` is `d`, nothing is in progress, no error. -/
theorem handleGenerateDocuments_of_success (gw : DocGateway) (v : ResultsView)
    (rd : ResumeData) (jd : FormData) (ar : AnalysisResults) (d : JsVal)
    (hrd : v.app.resumeData = some rd) (hjd : v.app.jobData = some jd)
    (har : v.app.analysisResults = some ar)
    (hd : gw (DocRequest.generateDocuments rd.text jd.jobRole jd.companyName
      ar.resumeAnalysis ar.atsScore ar.companyResearch ar.recommendations) = Except.ok d) :
    Results.handleGenerateDocuments gw v =
      { app := v.app,
        loc := { generatingDocs := false, documents := d, docError := JsVal.null } } := by
  unfold Results.handleGenerateDocuments
  simp only [har, hrd, hjd, hd]

/-- C13: for two successive invocations of `handleGenerateDocuments` whose
gateway calls resolve with `d1` and then `d2`, the second one on the same or
on other inputs, the `documents` held after the second invocation is exactly
`d2` whatever `d1` was (replacement, not merge): the cells are then what one
invocation that resolves with `d2` leaves on a fresh component. After each of
the two invocations `generatingDocs` is `false` and `docError` is `null`. -/
theorem generateDocuments_replaces (gw1 gw2 : DocGateway) (v : ResultsView) (app2 : App)
    (rd rd2 : ResumeData) (jd jd2 : FormData) (ar ar2 : AnalysisResults) (d1 d2 : JsVal)
    (hrd : v.app.resumeData = some rd) (hjd : v.app.jobData = some jd)
    (har : v.app.analysisResults = some ar)
    (hrd2 : app2.resumeData = some rd2) (hjd2 : app2.jobData = some jd2)
    (har2 : app2.analysisResults = some ar2)
    (h1 : gw1 (DocRequest.generateDocuments rd.text jd.jobRole jd.companyName
      ar.resumeAnalysis ar.atsScore ar.companyResearch ar.recommendations) = Except.ok d1)
    (h2 : gw2 (DocRequest.generateDocuments rd2.text jd2.jobRole jd2.companyName
      ar2.resumeAnalysis ar2.atsScore ar2.companyResearch ar2.recommendations)
      = Except.ok d2) :
    (Results.handleGenerateDocuments gw1 v).loc.documents = d1 ∧
    (Results.handleGenerateDocuments gw1 v).loc.generatingDocs = false ∧
    (Results.handleGenerateDocuments gw1 v).loc.docError = JsVal.null ∧
    (Results.handleGenerateDocuments gw2
      { app := app2, loc := (Results.handleGenerateDocuments gw1 v).loc }).loc.documents
      = d2 ∧
    (Results.handleGenerateDocuments gw2
      { app := app2, loc := (Results.handleGenerateDocuments gw1 v).loc }).loc.generatingDocs
      = false ∧
    (Results.handleGenerateDocuments gw2
      { app := app2, loc := (Results.handleGenerateDocuments gw1 v).loc }).loc.docError
      = JsVal.null ∧
    Results.handleGenerateDocuments gw2
        { app := app2, loc := (Results.handleGenerateDocuments gw1 v).loc } =
      Results.handleGenerateDocuments gw2 { app := app2, loc := ResultsLocal.init } := by
  have e1 := handleGenerateDocuments_of_success gw1 v rd jd ar d1 hrd hjd har h1
  have e2 := handleGenerateDocuments_of_success gw2 { app := app2, loc := ResultsLocal.init }
    rd2 jd2 ar2 d2 hrd2 hjd2 har2 h2
  have e12 := handleGenerateDocuments_of_success gw2
    { app := app2,
      loc := { generatingDocs := false, documents := d1, docError := JsVal.null } }
    rd2 jd2 ar2 d2 hrd2 hjd2 har2 h2
  rw [e1, e12, e2]
  exact ⟨rfl, rfl, rfl, rfl, rfl, rfl, rfl⟩

/-- Witness for C13: on `resultsView` the first document set has a cover
letter, the second has none, and after the second invocation no cover letter
is held. -/
theorem generateDocuments_replaces_witness :
    (Results.handleGenerateDocuments firstDocs resultsView).loc.documents
      = documentSet "out/resume_1.pdf" "out/cover_1.pdf" ∧
    (Results.handleGenerateDocuments secondDocs
      { app := resultsSession,
        loc := (Results.handleGenerateDocuments firstDocs resultsView).loc }).loc.documents
      = JsVal.obj [("resume_file_path", JsVal.str "out/resume_2.pdf")] :=
  ⟨rfl, (generateDocuments_replaces firstDocs secondDocs resultsView resultsSession
    sampleResume sampleResume sampleJob sampleJob _ _ _ _
    rfl rfl rfl rfl rfl rfl rfl rfl).2.2.2.1⟩

/-! ## What each event does to the session of `App` -/

/-- No result is written before the first `await` of a run. -/
theorem resultsWritten_effectsBeforeAwait (resumeData : Option ResumeData)
    (jobData : Option FormData) :
    resultsWritten (effectsBeforeAwait resumeData jobData) = [] := by
  cases resumeData with
  | none =>
    cases jobData <;>
      simp [effectsBeforeAwait, performAnalysis, performAnalysisRun, bind, Run.andThen,
        Run.emit, Run.await, Run.deref, Run.tryCatch, Effect.isCall, resultsWritten]
  | some rd =>
    cases jobData with
    | none =>
      simp [effectsBeforeAwait, performAnalysis, performAnalysisRun, bind, Run.andThen,
        Run.emit, Run.await, Run.deref, Run.tryCatch, Effect.isCall, resultsWritten]
    | some jd =>
      rw [effectsBeforeAwait_some rd jd]
      rfl

/-- The session after the effects of a run: the last result written, if any,
is stored, and nothing else of the session changes. -/
theorem applyEffects_app (s : Session) (owner : Nat) (t : List Effect) :
    (s.applyEffects owner t).app =
      match (resultsWritten t).getLast? with
      | some r => { s.app with analysisResults := some r }
      | none => s.app := by
  unfold Session.applyEffects
  cases hv : s.view with
  | analysis loc =>
    simp only []
    split_ifs
    · exact foldl_applyEffect_app t { app := s.app, loc := loc, timers := s.timers }
    · exact foldl_applyEffect_app t { app := s.app, loc := loc, timers := s.timers }
  | upload loc =>
    exact foldl_applyEffect_app t { app := s.app, loc := AnalysisLocal.init, timers := s.timers }
  | jobDetails fd =>
    exact foldl_applyEffect_app t { app := s.app, loc := AnalysisLocal.init, timers := s.timers }
  | results =>
    exact foldl_applyEffect_app t { app := s.app, loc := AnalysisLocal.init, timers := s.timers }
  | unknownStep =>
    exact foldl_applyEffect_app t { app := s.app, loc := AnalysisLocal.init, timers := s.timers }

/-- Starting a run leaves the session of `App` as it is. -/
theorem startRun_app (s : Session) : s.startRun.app = s.app := by
  unfold Session.startRun
  have h := applyEffects_app s s.mountId (effectsBeforeAwait s.app.resumeData s.app.jobData)
  rw [resultsWritten_effectsBeforeAwait] at h
  split_ifs
  · exact h
  · exact h

/-- Mounting a component leaves the session of `App` as it is. -/
theorem mount_app (s : Session) : s.mount.app = s.app := by
  unfold Session.mount
  cases getStepContent s.app.activeStep with
  | upload => rfl
  | jobDetails => rfl
  | analysis => exact startRun_app _
  | results => rfl
  | unknownStep => rfl

/-- After a handler of `App` the session is what the handler returned. -/
theorem navigate_app (s : Session) (app : App) : (s.navigate app).app = app := by
  unfold Session.navigate
  split_ifs
  · rfl
  · exact mount_app _

/-- Storing the last result written, if any, changes `analysisResults` only. -/
theorem storeLast_sameResumeAndJob (app : App) (l : List AnalysisResults) :
    sameResumeAndJob app
      (match l.getLast? with
        | some r => { app with analysisResults := some r }
        | none => app) := by
  cases l.getLast? <;> exact ⟨rfl, rfl⟩

/-- The events of the Upload stage leave `jobData` and `analysisResults` as
they are. -/
theorem upload_events_frame (s : Session) :
    (∀ file, sameJobAndResults s.app (uiStep s (UiEvent.drop file)).app) ∧
    (∀ i outcome, sameJobAndResults s.app (uiStep s (UiEvent.uploadSettled i outcome)).app) ∧
    sameJobAndResults s.app (uiStep s UiEvent.uploadNext).app := by
  refine ⟨fun file => ?_, fun i outcome => ?_, ?_⟩
  · simp only [uiStep]
    cases s.view with
    | upload loc =>
      simp only []
      split_ifs <;> exact ⟨rfl, rfl⟩
    | jobDetails fd => exact ⟨rfl, rfl⟩
    | analysis loc => exact ⟨rfl, rfl⟩
    | results => exact ⟨rfl, rfl⟩
    | unknownStep => exact ⟨rfl, rfl⟩
  · simp only [uiStep]
    cases s.uploads[i]? with
    | none => exact ⟨rfl, rfl⟩
    | some up =>
      cases outcome with
      | error e => exact ⟨rfl, rfl⟩
      | ok result =>
        obtain ⟨_, hjob, hres⟩ := uploadResolved_frame up.file result s.app
        exact ⟨hjob, hres⟩
  · simp only [uiStep]
    cases s.view with
    | upload loc =>
      simp only []
      split_ifs
      · rw [navigate_app]
        unfold UploadResume.handleNext
        split_ifs <;> exact ⟨rfl, rfl⟩
      · exact ⟨rfl, rfl⟩
    | jobDetails fd => exact ⟨rfl, rfl⟩
    | analysis loc => exact ⟨rfl, rfl⟩
    | results => exact ⟨rfl, rfl⟩
    | unknownStep => exact ⟨rfl, rfl⟩

/-- The events of the JobDetails stage leave `resumeData` and
`analysisResults` as they are. -/
theorem jobDetails_events_frame (s : Session) :
    (∀ field value,
      sameResumeAndResults s.app (uiStep s (UiEvent.jobChange field value)).app) ∧
    sameResumeAndResults s.app (uiStep s UiEvent.jobNext).app ∧
    sameResumeAndResults s.app (uiStep s UiEvent.jobBack).app := by
  refine ⟨fun field value => ?_, ?_, ?_⟩
  · simp only [uiStep]
    cases s.view <;> exact ⟨rfl, rfl⟩
  · simp only [uiStep]
    cases s.view with
    | jobDetails fd =>
      simp only []
      split_ifs with hcond
      · rw [navigate_app]
        unfold JobDetails.handleNext
        rw [if_pos hcond]
        exact ⟨rfl, rfl⟩
      · exact ⟨rfl, rfl⟩
    | upload loc => exact ⟨rfl, rfl⟩
    | analysis loc => exact ⟨rfl, rfl⟩
    | results => exact ⟨rfl, rfl⟩
    | unknownStep => exact ⟨rfl, rfl⟩
  · simp only [uiStep]
    cases s.view with
    | jobDetails fd =>
      simp only []
      rw [navigate_app]
      exact ⟨rfl, rfl⟩
    | upload loc => exact ⟨rfl, rfl⟩
    | analysis loc => exact ⟨rfl, rfl⟩
    | results => exact ⟨rfl, rfl⟩
    | unknownStep => exact ⟨rfl, rfl⟩

/-- The events of the Analysis stage leave `resumeData` and `jobData` as they
are. -/
theorem analysis_events_frame (s : Session) :
    (∀ i gw, sameResumeAndJob s.app (uiStep s (UiEvent.analysisSettled i gw)).app) ∧
    sameResumeAndJob s.app (uiStep s UiEvent.analysisRetry).app ∧
    sameResumeAndJob s.app (uiStep s UiEvent.analysisBack).app ∧
    sameResumeAndJob s.app (uiStep s UiEvent.delayElapsed).app := by
  refine ⟨fun i gw => ?_, ?_, ?_, ?_⟩
  · simp only [uiStep]
    cases s.runs[i]? with
    | none => exact ⟨rfl, rfl⟩
    | some run =>
      simp only []
      rw [applyEffects_app]
      exact storeLast_sameResumeAndJob s.app _
  · simp only [uiStep]
    cases s.view with
    | analysis loc =>
      simp only []
      split_ifs
      · rw [startRun_app]
        exact ⟨rfl, rfl⟩
      · exact ⟨rfl, rfl⟩
    | upload loc => exact ⟨rfl, rfl⟩
    | jobDetails fd => exact ⟨rfl, rfl⟩
    | results => exact ⟨rfl, rfl⟩
    | unknownStep => exact ⟨rfl, rfl⟩
  · simp only [uiStep]
    cases s.view with
    | analysis loc =>
      simp only []
      split_ifs
      · rw [navigate_app]
        exact ⟨rfl, rfl⟩
      · exact ⟨rfl, rfl⟩
    | upload loc => exact ⟨rfl, rfl⟩
    | jobDetails fd => exact ⟨rfl, rfl⟩
    | results => exact ⟨rfl, rfl⟩
    | unknownStep => exact ⟨rfl, rfl⟩
  · simp only [uiStep]
    split_ifs
    · rw [navigate_app]
      exact ⟨rfl, rfl⟩
    · exact ⟨rfl, rfl⟩

/-- A complete run of `performAnalysis` leaves `resumeData` and `jobData` as
they are. -/
theorem runAnalysis_frame (gw : Gateway) (v : AnalysisView) :
    sameResumeAndJob v.app (runAnalysis gw v).app := by
  unfold runAnalysis
  rw [foldl_applyEffect_app]
  exact storeLast_sameResumeAndJob v.app _

/-- C12: every step taken by a stage's handlers changes only that stage's own
session field. The Upload stage (a drop, the settling of an upload, `Next`;
`onDrop` and `handleNext` as functions on the session) leaves `jobData` and
`analysisResults` unchanged. The JobDetails stage (`handleChange`,
`handleNext`, `Back`) leaves `resumeData` and `analysisResults` unchanged. The
Analysis stage (`performAnalysis` as a whole run, the settling of a run in
flight, `Retry`, `Back`, the delayed `onNext`) leaves `resumeData` and
`jobData` unchanged. The Results stage apart from reset (generating documents,
downloading, `Back`) leaves `resumeData`, `jobData` and `analysisResults`
unchanged. -/
theorem stage_handlers_frame (s : Session) :
    ((∀ file, sameJobAndResults s.app (uiStep s (UiEvent.drop file)).app) ∧
      (∀ i outcome,
        sameJobAndResults s.app (uiStep s (UiEvent.uploadSettled i outcome)).app) ∧
      sameJobAndResults s.app (uiStep s UiEvent.uploadNext).app ∧
      (∀ file result, sameJobAndResults s.app (UploadResume.onDropResolved file result s.app)) ∧
      sameJobAndResults s.app (UploadResume.handleNext s.app)) ∧
    ((∀ field value,
        sameResumeAndResults s.app (uiStep s (UiEvent.jobChange field value)).app) ∧
      sameResumeAndResults s.app (uiStep s UiEvent.jobNext).app ∧
      sameResumeAndResults s.app (uiStep s UiEvent.jobBack).app ∧
      (∀ formData, sameResumeAndResults s.app (JobDetails.handleNext formData s.app))) ∧
    ((∀ gw loc timers,
        sameResumeAndJob s.app
          (runAnalysis gw { app := s.app, loc := loc, timers := timers }).app) ∧
      (∀ i gw, sameResumeAndJob s.app (uiStep s (UiEvent.analysisSettled i gw)).app) ∧
      sameResumeAndJob s.app (uiStep s UiEvent.analysisRetry).app ∧
      sameResumeAndJob s.app (uiStep s UiEvent.analysisBack).app ∧
      sameResumeAndJob s.app (uiStep s UiEvent.delayElapsed).app) ∧
    ((∀ gw loc,
        (Results.handleGenerateDocuments gw { app := s.app, loc := loc }).app = s.app) ∧
      (∀ gw filename loc,
        Results.handleDownload gw filename { app := s.app, loc := loc }
          = { app := s.app, loc := loc }) ∧
      (∀ loc, sameData s.app (Results.back { app := s.app, loc := loc }).app) ∧
      sameData s.app (uiStep s UiEvent.resultsBack).app) := by
  obtain ⟨hu1, hu2, hu3⟩ := upload_events_frame s
  obtain ⟨hj1, hj2, hj3⟩ := jobDetails_events_frame s
  obtain ⟨ha1, ha2, ha3, ha4⟩ := analysis_events_frame s
  refine ⟨⟨hu1, hu2, hu3, fun file result => ?_, ?_⟩, ⟨hj1, hj2, hj3, fun formData => ?_⟩,
    ⟨fun gw loc timers => runAnalysis_frame gw _, ha1, ha2, ha3, ha4⟩,
    ⟨fun gw loc => ?_, fun gw filename loc => ?_, fun loc => ⟨rfl, rfl, rfl⟩, ?_⟩⟩
  · obtain ⟨_, hjob, hres⟩ := uploadResolved_frame file result s.app
    exact ⟨hjob, hres⟩
  · unfold UploadResume.handleNext
    split_ifs <;> exact ⟨rfl, rfl⟩
  · unfold JobDetails.handleNext
    split_ifs <;> exact ⟨rfl, rfl⟩
  · unfold Results.handleGenerateDocuments
    cases s.app.analysisResults <;> rfl
  · unfold Results.handleDownload
    cases gw (DocRequest.downloadDocument filename) <;> rfl
  · simp only [uiStep]
    cases s.view with
    | results =>
      simp only []
      rw [navigate_app]
      exact ⟨rfl, rfl, rfl⟩
    | upload loc => exact ⟨rfl, rfl, rfl⟩
    | jobDetails fd => exact ⟨rfl, rfl, rfl⟩
    | analysis loc => exact ⟨rfl, rfl, rfl⟩
    | unknownStep => exact ⟨rfl, rfl, rfl⟩

/-- How an event can change `activeStep`: not at all, or by one of the seven
navigation controls, each under its own component (the delayed `onNext` under
a pending callback). -/
theorem uiStep_activeStep (s : Session) (ev : UiEvent) :
    (uiStep s ev).app.activeStep = s.app.activeStep ∨
    (ev = UiEvent.uploadNext ∧ (∃ loc, s.view = Mounted.upload loc) ∧
      (uiStep s ev).app.activeStep = s.app.activeStep + 1) ∨
    (ev = UiEvent.jobNext ∧ (∃ fd, s.view = Mounted.jobDetails fd) ∧
      (uiStep s ev).app.activeStep = s.app.activeStep + 1) ∨
    (ev = UiEvent.jobBack ∧ (∃ fd, s.view = Mounted.jobDetails fd) ∧
      (uiStep s ev).app.activeStep = s.app.activeStep - 1) ∨
    (ev = UiEvent.analysisBack ∧ (∃ loc, s.view = Mounted.analysis loc) ∧
      (uiStep s ev).app.activeStep = s.app.activeStep - 1) ∨
    (ev = UiEvent.delayElapsed ∧ 0 < s.timers ∧
      (uiStep s ev).app.activeStep = s.app.activeStep + 1) ∨
    (ev = UiEvent.resultsBack ∧ s.view = Mounted.results ∧
      (uiStep s ev).app.activeStep = s.app.activeStep - 1) ∨
    (ev = UiEvent.resultsReset ∧ s.view = Mounted.results ∧
      (uiStep s ev).app.activeStep = 0) := by
  cases ev with
  | drop file =>
    left
    exact congrArg App.activeStep
      (show (uiStep s (UiEvent.drop file)).app = s.app by
        simp only [uiStep]
        cases s.view with
        | upload loc =>
          simp only []
          split_ifs <;> rfl
        | jobDetails fd => rfl
        | analysis loc => rfl
        | results => rfl
        | unknownStep => rfl)
  | uploadSettled i outcome =>
    left
    simp only [uiStep]
    cases s.uploads[i]? with
    | none => rfl
    | some up =>
      cases outcome with
      | error e => rfl
      | ok result => exact (uploadResolved_frame up.file result s.app).1
  | uploadNext =>
    cases hv : s.view with
    | upload loc =>
      simp only [uiStep, hv]
      split_ifs with hcond
      · right; left
        refine ⟨by first | rfl | trivial, ⟨loc, rfl⟩, ?_⟩
        rw [navigate_app]
        unfold UploadResume.handleNext
        rw [if_pos hcond.1]
        rfl
      · left; rfl
    | jobDetails fd => left; simp only [uiStep, hv]
    | analysis loc => left; simp only [uiStep, hv]
    | results => left; simp only [uiStep, hv]
    | unknownStep => left; simp only [uiStep, hv]
  | jobChange field value =>
    left
    simp only [uiStep]
    cases s.view <;> rfl
  | jobNext =>
    cases hv : s.view with
    | jobDetails fd =>
      simp only [uiStep, hv]
      split_ifs with hcond
      · right; right; left
        refine ⟨by first | rfl | trivial, ⟨fd, rfl⟩, ?_⟩
        rw [navigate_app]
        unfold JobDetails.handleNext
        rw [if_pos hcond]
        rfl
      · left; rfl
    | upload loc => left; simp only [uiStep, hv]
    | analysis loc => left; simp only [uiStep, hv]
    | results => left; simp only [uiStep, hv]
    | unknownStep => left; simp only [uiStep, hv]
  | jobBack =>
    cases hv : s.view with
    | jobDetails fd =>
      simp only [uiStep, hv]
      right; right; right; left
      refine ⟨by first | rfl | trivial, ⟨fd, rfl⟩, ?_⟩
      rw [navigate_app]
      rfl
    | upload loc => left; simp only [uiStep, hv]
    | analysis loc => left; simp only [uiStep, hv]
    | results => left; simp only [uiStep, hv]
    | unknownStep => left; simp only [uiStep, hv]
  | analysisSettled i gw =>
    left
    simp only [uiStep]
    cases s.runs[i]? with
    | none => rfl
    | some run =>
      simp only []
      rw [applyEffects_app]
      cases (resultsWritten (effectsFromAwait gw run.resumeData run.jobData)).getLast? <;> rfl
  | analysisRetry =>
    left
    simp only [uiStep]
    cases s.view with
    | analysis loc =>
      simp only []
      split_ifs
      · rw [startRun_app]
      · rfl
    | upload loc => rfl
    | jobDetails fd => rfl
    | results => rfl
    | unknownStep => rfl
  | analysisBack =>
    cases hv : s.view with
    | analysis loc =>
      simp only [uiStep, hv]
      split_ifs
      · right; right; right; right; left
        refine ⟨by first | rfl | trivial, ⟨loc, rfl⟩, ?_⟩
        rw [navigate_app]
        rfl
      · left; rfl
    | upload loc => left; simp only [uiStep, hv]
    | jobDetails fd => left; simp only [uiStep, hv]
    | results => left; simp only [uiStep, hv]
    | unknownStep => left; simp only [uiStep, hv]
  | delayElapsed =>
    simp only [uiStep]
    split_ifs with hpending
    · right; right; right; right; right; left
      refine ⟨by first | rfl | trivial, hpending, ?_⟩
      rw [navigate_app]
      rfl
    · left; rfl
  | resultsBack =>
    cases hv : s.view with
    | results =>
      simp only [uiStep, hv]
      right; right; right; right; right; right; left
      refine ⟨by first | rfl | trivial, by first | rfl | trivial, ?_⟩
      rw [navigate_app]
      rfl
    | upload loc => left; simp only [uiStep, hv]
    | jobDetails fd => left; simp only [uiStep, hv]
    | analysis loc => left; simp only [uiStep, hv]
    | unknownStep => left; simp only [uiStep, hv]
  | resultsReset =>
    cases hv : s.view with
    | results =>
      simp only [uiStep, hv]
      split_ifs
      · right; right; right; right; right; right; right
        refine ⟨by first | rfl | trivial, by first | rfl | trivial, ?_⟩
        rw [navigate_app]
        rfl
      · left; rfl
    | upload loc => left; simp only [uiStep, hv]
    | jobDetails fd => left; simp only [uiStep, hv]
    | analysis loc => left; simp only [uiStep, hv]
    | unknownStep => left; simp only [uiStep, hv]

/-- How an event can change `analysisResults`: not at all, or a settling run
stores a result, or `Start New Analysis` resets the session. -/
theorem uiStep_analysisResults (s : Session) (ev : UiEvent) :
    (uiStep s ev).app.analysisResults = s.app.analysisResults ∨
    (∃ i gw r, ev = UiEvent.analysisSettled i gw ∧
      (uiStep s ev).app.analysisResults = some r) ∨
    (ev = UiEvent.resultsReset ∧ s.view = Mounted.results ∧
      s.app.analysisResults.isSome = true ∧ (uiStep s ev).app = App.handleReset s.app) := by
  cases ev with
  | drop file => exact Or.inl ((upload_events_frame s).1 file).2
  | uploadSettled i outcome => exact Or.inl ((upload_events_frame s).2.1 i outcome).2
  | uploadNext => exact Or.inl (upload_events_frame s).2.2.2
  | jobChange field value => exact Or.inl ((jobDetails_events_frame s).1 field value).2
  | jobNext => exact Or.inl (jobDetails_events_frame s).2.1.2
  | jobBack => exact Or.inl (jobDetails_events_frame s).2.2.2
  | analysisSettled i gw =>
    simp only [uiStep]
    cases s.runs[i]? with
    | none => exact Or.inl rfl
    | some run =>
      simp only []
      rw [applyEffects_app]
      cases (resultsWritten (effectsFromAwait gw run.resumeData run.jobData)).getLast? with
      | none => exact Or.inl rfl
      | some r => exact Or.inr (Or.inl ⟨i, gw, r, rfl, rfl⟩)
  | analysisRetry =>
    left
    simp only [uiStep]
    cases s.view with
    | analysis loc =>
      simp only []
      split_ifs
      · rw [startRun_app]
      · rfl
    | upload loc => rfl
    | jobDetails fd => rfl
    | results => rfl
    | unknownStep => rfl
  | analysisBack =>
    left
    simp only [uiStep]
    cases s.view with
    | analysis loc =>
      simp only []
      split_ifs
      · rw [navigate_app]
        rfl
      · rfl
    | upload loc => rfl
    | jobDetails fd => rfl
    | results => rfl
    | unknownStep => rfl
  | delayElapsed =>
    left
    simp only [uiStep]
    split_ifs
    · rw [navigate_app]
      rfl
    · rfl
  | resultsBack =>
    left
    simp only [uiStep]
    cases s.view with
    | results =>
      simp only []
      rw [navigate_app]
      rfl
    | upload loc => rfl
    | jobDetails fd => rfl
    | analysis loc => rfl
    | unknownStep => rfl
  | resultsReset =>
    cases hv : s.view with
    | results =>
      simp only [uiStep, hv]
      split_ifs with hsome
      · right; right
        exact ⟨by first | rfl | trivial, by first | rfl | trivial, hsome, navigate_app _ _⟩
      · left; rfl
    | upload loc => left; simp only [uiStep, hv]
    | jobDetails fd => left; simp only [uiStep, hv]
    | analysis loc => left; simp only [uiStep, hv]
    | unknownStep => left; simp only [uiStep, hv]

/-- In a state the application reaches, the only event that enters the Results
stage is the elapsing of the delay, and it does so with a result stored. -/
theorem enters_results_only_by_delay (s : Session) (ev : UiEvent) (hwf : s.Wf)
    (hnot : s.app.activeStep ≠ 3) (hin : (uiStep s ev).app.activeStep = 3) :
    ev = UiEvent.delayElapsed ∧ s.app.analysisResults.isSome = true := by
  obtain ⟨_, hview⟩ := hwf
  rcases uiStep_activeStep s ev with h | ⟨_, ⟨loc, hv⟩, h⟩ | ⟨_, ⟨fd, hv⟩, h⟩ |
    ⟨_, ⟨fd, hv⟩, h⟩ | ⟨_, ⟨loc, hv⟩, h⟩ | ⟨hev, hpending, h⟩ | ⟨_, hv, h⟩ | ⟨_, _, h⟩
  · rw [h] at hin
    exact absurd hin hnot
  · rw [hv] at hview
    have h0 := hview.1
    omega
  · rw [hv] at hview
    have h1 := hview.1
    omega
  · rw [hv] at hview
    have h1 := hview.1
    omega
  · rw [hv] at hview
    have h2 := hview.1
    omega
  · refine ⟨hev, ?_⟩
    cases hv : s.view with
    | upload loc =>
      rw [hv] at hview
      have := hview.2.2
      omega
    | jobDetails fd =>
      rw [hv] at hview
      have := hview.2.2
      omega
    | results =>
      rw [hv] at hview
      exact hview.2.2.2
    | unknownStep =>
      rw [hv] at hview
      exact hview.elim
    | analysis loc =>
      rw [hv] at hview
      rcases hview.2 with ⟨r, _, _, _, _, _, ht⟩ | ⟨_, ht⟩ | ⟨_, _, _, hres⟩
      · omega
      · omega
      · exact hres
  · rw [hv] at hview
    exact absurd hview.1 hnot
  · omega

/-- C14: `App.handleNext` and `App.handleBack` are an unguarded increment and
decrement (from step 0 `handleBack` leads to 'Unknown step', and so does
`handleNext` from step 3), yet along every sequence of events the components
can issue from the initial state `activeStep` is 0, 1, 2 or 3: it is never -1
or 4, and `getStepContent` never returns 'Unknown step'. -/
theorem activeStep_stays_in_range (events : List UiEvent) :
    (∀ a : App, (App.handleNext a).activeStep = a.activeStep + 1 ∧
      (App.handleBack a).activeStep = a.activeStep - 1) ∧
    getStepContent (App.handleBack App.init).activeStep = Stage.unknownStep ∧
    getStepContent (App.handleNext resultsSession).activeStep = Stage.unknownStep ∧
    ((uiRun events).app.activeStep = 0 ∨ (uiRun events).app.activeStep = 1 ∨
      (uiRun events).app.activeStep = 2 ∨ (uiRun events).app.activeStep = 3) ∧
    (uiRun events).app.activeStep ≠ -1 ∧
    (uiRun events).app.activeStep ≠ 4 ∧
    getStepContent (uiRun events).app.activeStep ≠ Stage.unknownStep := by
  have hrange := (wf_activeStep _ (uiRun_wf events)).1
  refine ⟨fun a => ⟨rfl, rfl⟩, by decide, by decide, hrange, ?_, ?_, ?_⟩
  · rcases hrange with h | h | h | h <;> rw [h] <;> decide
  · rcases hrange with h | h | h | h <;> rw [h] <;> decide
  · rcases hrange with h | h | h | h <;> rw [h] <;> decide

/-- C15: in every state reached from the initial state by the components'
events, `activeStep = 3` implies that `analysisResults` is present, so that
`Results` does not return its fallback. The only event that enters the
Results stage is the delayed `onNext`, which finds a result stored; and the
only event that sets a present `analysisResults` to `null` is the reset, which
leaves the Results stage for step 0. -/
theorem results_fallback_unreachable (events : List UiEvent) (ev : UiEvent) :
    ((uiRun events).app.activeStep = 3 →
      (uiRun events).app.analysisResults.isSome = true ∧
      Results.showsFallback (uiRun events).app.analysisResults = false) ∧
    ((uiRun events).app.activeStep ≠ 3 →
      (uiStep (uiRun events) ev).app.activeStep = 3 →
      ev = UiEvent.delayElapsed ∧ (uiRun events).app.analysisResults.isSome = true) ∧
    ((uiRun events).app.analysisResults.isSome = true →
      (uiStep (uiRun events) ev).app.analysisResults = none →
      ev = UiEvent.resultsReset ∧ (uiRun events).app.activeStep = 3 ∧
      (uiStep (uiRun events) ev).app.activeStep = 0) := by
  have hwf := uiRun_wf events
  refine ⟨fun h3 => ?_, fun hnot hin => enters_results_only_by_delay _ ev hwf hnot hin,
    fun hsome hnone => ?_⟩
  · have hres := ((wf_activeStep _ hwf).2 h3).2
    refine ⟨hres, ?_⟩
    unfold Results.showsFallback
    cases h : (uiRun events).app.analysisResults with
    | none => rw [h] at hres; exact absurd hres (by decide)
    | some r => rfl
  · rcases uiStep_analysisResults (uiRun events) ev with h | ⟨i, gw, r, _, h⟩ |
      ⟨hev, hv, _, happ⟩
    · rw [h] at hnone
      rw [hnone] at hsome
      exact absurd hsome (by decide)
    · rw [h] at hnone
      exact absurd hnone (by simp)
    · refine ⟨hev, ?_, ?_⟩
      · have hview := hwf.2
        rw [hv] at hview
        exact hview.1
      · rw [happ]
        rfl

/-- Witness for C15: `singleUpload` ends on the Results stage, where the
result is present and the fallback is not shown. -/
theorem results_fallback_unreachable_witness :
    (uiRun singleUpload).app.activeStep = 3 ∧
    (uiRun singleUpload).app.analysisResults.isSome = true ∧
    Results.showsFallback (uiRun singleUpload).app.analysisResults = false :=
  ⟨rfl, (results_fallback_unreachable singleUpload UiEvent.delayElapsed).1 rfl⟩

/-! ## Histories -/

/-- The flags of a history only observe: its state is the state of the
running application. -/
theorem history_foldl_session (events : List UiEvent) (h : History) :
    (events.foldl History.step h).session = events.foldl uiStep h.session := by
  induction events generalizing h with
  | nil => rfl
  | cons ev rest ih => exact ih (History.step h ev)

/-- The state of the history of a sequence of events is the state the
sequence reaches. -/
theorem history_run_session (events : List UiEvent) :
    (History.run events).session = uiRun events :=
  history_foldl_session events History.init

/-- A reset puts the session into the state `App.handleReset` returns. -/
theorem resets_spec (s : Session) (ev : UiEvent) (h : resets s ev = true) :
    (uiStep s ev).app = App.handleReset s.app := by
  cases ev with
  | resultsReset =>
    cases hv : s.view with
    | results =>
      simp only [resets, hv] at h
      simp only [uiStep, hv, h, if_true]
      exact navigate_app _ _
    | upload loc => simp [resets, hv] at h
    | jobDetails fd => simp [resets, hv] at h
    | analysis loc => simp [resets, hv] at h
    | unknownStep => simp [resets, hv] at h
  | _ => simp [resets] at h

/-- Whether a result is present after an event: never after a reset, and
otherwise when the event stored one or one was present before. -/
theorem uiStep_isSome (s : Session) (ev : UiEvent) :
    (uiStep s ev).app.analysisResults.isSome =
      (if resets s ev then false
       else (storesResult s ev || s.app.analysisResults.isSome)) := by
  cases ev with
  | drop file =>
    simp only [resets, storesResult, Bool.false_or, Bool.false_eq_true, if_false]
    rw [((upload_events_frame s).1 file).2]
  | uploadSettled i outcome =>
    simp only [resets, storesResult, Bool.false_or, Bool.false_eq_true, if_false]
    rw [((upload_events_frame s).2.1 i outcome).2]
  | uploadNext =>
    simp only [resets, storesResult, Bool.false_or, Bool.false_eq_true, if_false]
    rw [(upload_events_frame s).2.2.2]
  | jobChange field value =>
    simp only [resets, storesResult, Bool.false_or, Bool.false_eq_true, if_false]
    rw [((jobDetails_events_frame s).1 field value).2]
  | jobNext =>
    simp only [resets, storesResult, Bool.false_or, Bool.false_eq_true, if_false]
    rw [(jobDetails_events_frame s).2.1.2]
  | jobBack =>
    simp only [resets, storesResult, Bool.false_or, Bool.false_eq_true, if_false]
    rw [(jobDetails_events_frame s).2.2.2]
  | analysisSettled i gw =>
    simp only [resets, storesResult, Bool.false_eq_true, if_false, uiStep]
    cases s.runs[i]? with
    | none => simp
    | some run =>
      simp only []
      rw [applyEffects_app]
      cases hl : resultsWritten (effectsFromAwait gw run.resumeData run.jobData) with
      | nil => simp
      | cons a l =>
        have hne : (a :: l).getLast? = some ((a :: l).getLast (by simp)) :=
          List.getLast?_eq_getLast _ _
        rw [hne]
        simp
  | analysisRetry =>
    simp only [resets, storesResult, Bool.false_or, Bool.false_eq_true, if_false]
    rcases uiStep_analysisResults s UiEvent.analysisRetry with h | ⟨_, _, _, hev, _⟩ | ⟨hev, _⟩
    · rw [h]
    · cases hev
    · cases hev
  | analysisBack =>
    simp only [resets, storesResult, Bool.false_or, Bool.false_eq_true, if_false]
    rcases uiStep_analysisResults s UiEvent.analysisBack with h | ⟨_, _, _, hev, _⟩ | ⟨hev, _⟩
    · rw [h]
    · cases hev
    · cases hev
  | delayElapsed =>
    simp only [resets, storesResult, Bool.false_or, Bool.false_eq_true, if_false]
    rcases uiStep_analysisResults s UiEvent.delayElapsed with h | ⟨_, _, _, hev, _⟩ | ⟨hev, _⟩
    · rw [h]
    · cases hev
    · cases hev
  | resultsBack =>
    simp only [resets, storesResult, Bool.false_or, Bool.false_eq_true, if_false]
    rcases uiStep_analysisResults s UiEvent.resultsBack with h | ⟨_, _, _, hev, _⟩ | ⟨hev, _⟩
    · rw [h]
    · cases hev
    · cases hev
  | resultsReset =>
    cases hr : resets s UiEvent.resultsReset with
    | true =>
      rw [resets_spec s _ hr]
      rfl
    | false =>
      simp only [storesResult, Bool.false_or, Bool.false_eq_true, if_false]
      rcases uiStep_analysisResults s UiEvent.resultsReset with h | ⟨_, _, _, hev, _⟩ |
        ⟨_, hv, hsome, _⟩
      · rw [h]
      · cases hev
      · simp [resets, hv, hsome] at hr

/-- On the Results stage of a state the application reaches, a result is
present. -/
theorem onResults_isSome (s : Session) (hwf : s.Wf) (h : onResults s = true) :
    s.app.analysisResults.isSome = true := by
  unfold onResults at h
  have h3 := getStepContent_results (of_decide_eq_true h)
  exact ((wf_activeStep s hwf).2 h3).2

/-- After a reset the Results stage is not rendered. -/
theorem resets_not_onResults (s : Session) (ev : UiEvent) (h : resets s ev = true) :
    onResults (uiStep s ev) = false := by
  unfold onResults
  rw [resets_spec s ev h]
  rfl

/-- Every event preserves the invariant of histories. -/
theorem history_step_inv (h : History) (ev : UiEvent) (hinv : h.Inv) : (h.step ev).Inv := by
  obtain ⟨hwf, hsucc, hreach, hchange⟩ := hinv
  have hwf2 : (uiStep h.session ev).Wf := uiStep_wf h.session ev hwf
  have hsome := uiStep_isSome h.session ev
  refine ⟨hwf2, ?_, ?_, ?_⟩
  · show (if resets h.session ev then false
        else h.successSinceReset || storesResult h.session ev)
      = (uiStep h.session ev).app.analysisResults.isSome
    rw [hsome, hsucc, Bool.or_comm]
  · show (if resets h.session ev then false
        else h.resultsSinceReset || onResults (uiStep h.session ev)) = true →
      (uiStep h.session ev).app.analysisResults.isSome = true
    intro hflag
    cases hr : resets h.session ev with
    | true => simp [hr] at hflag
    | false =>
      simp only [hr, Bool.false_eq_true, if_false, Bool.or_eq_true] at hflag
      rcases hflag with hold | hnow
      · rw [hsome, hr, hreach hold]
        simp
      · exact onResults_isSome _ hwf2 hnow
  · show (if resets h.session ev || setsData h.session ev then onResults (uiStep h.session ev)
        else h.resultsSinceChange || onResults (uiStep h.session ev)) = true →
      (if resets h.session ev then false
        else h.resultsSinceReset || onResults (uiStep h.session ev)) = true
    intro hflag
    cases hr : resets h.session ev with
    | true =>
      simp only [hr, Bool.true_or, if_true] at hflag
      rw [resets_not_onResults h.session ev hr] at hflag
      exact absurd hflag (by decide)
    | false =>
      simp only [hr, Bool.false_or, Bool.false_eq_true, if_false] at hflag ⊢
      cases hs : setsData h.session ev with
      | true =>
        simp only [hs, if_true] at hflag
        rw [hflag]
        simp
      | false =>
        simp only [hs, Bool.false_eq_true, if_false, Bool.or_eq_true] at hflag
        rcases hflag with hold | hnow
        · rw [hchange hold]
          simp
        · rw [hnow]
          simp

/-- The invariant of histories holds at start. -/
theorem history_init_inv : History.init.Inv :=
  ⟨wf_init, rfl, fun h => absurd h (by decide), fun h => absurd h (by decide)⟩

/-- The invariant of histories holds along every sequence of events. -/
theorem history_foldl_inv (events : List UiEvent) (h : History) (hinv : h.Inv) :
    (events.foldl History.step h).Inv := by
  induction events generalizing h with
  | nil => exact hinv
  | cons ev rest ih => exact ih _ (history_step_inv h ev hinv)

/-- C11, as the code has it: in every state reached from the initial state,
`analysisResults` is present if and only if a run of `performAnalysis` has
stored a result since the last reset. It is present whenever the Results
stage has been reached at least once since the last reset, and whenever it
has been reached since the last reset and since `jobData` or `resumeData`
was last set; the converse is not claimed. -/
theorem analysisResults_present_iff_stored (events : List UiEvent) :
    (History.run events).session = uiRun events ∧
    ((uiRun events).app.analysisResults.isSome = true ↔
      (History.run events).successSinceReset = true) ∧
    ((History.run events).resultsSinceReset = true →
      (uiRun events).app.analysisResults.isSome = true) ∧
    ((History.run events).resultsSinceChange = true →
      (uiRun events).app.analysisResults.isSome = true) := by
  obtain ⟨_, hsucc, hreach, hchange⟩ := history_foldl_inv events History.init history_init_inv
  have hs := history_run_session events
  unfold History.run at hs ⊢
  rw [hs] at hsucc hreach
  refine ⟨hs, ?_, hreach, fun h => hreach (hchange h)⟩
  rw [hsucc]

/-- Witness for C11 as amended: `singleUpload` has reached the Results stage
since the last change of its inputs, and the result is present. -/
theorem analysisResults_present_iff_stored_witness :
    (History.run singleUpload).resultsSinceChange = true ∧
    (uiRun singleUpload).app.analysisResults.isSome = true :=
  ⟨rfl, (analysisResults_present_iff_stored singleUpload).2.2.2 rfl⟩

/-- Counterexample to C11. After `beforeResults` the run has stored its result
and the delay has not elapsed: `analysisResults` is present although the
Results stage has never been reached. After `editAfterResults` the Results
stage has been reached, but not since `jobData` was last changed: the company
is now Initech and `analysisResults`, still present, is the one computed for
Acme. In both states the claimed equivalence fails. -/
theorem present_without_results_reached :
    (uiRun beforeResults).app.analysisResults.isSome = true ∧
    (uiRun beforeResults).app.activeStep = 2 ∧
    (History.run beforeResults).resultsSinceReset = false ∧
    (History.run beforeResults).resultsSinceChange = false ∧
    ¬ ((uiRun beforeResults).app.analysisResults.isSome = true ↔
        (History.run beforeResults).resultsSinceChange = true) ∧
    ¬ ((uiRun beforeResults).app.analysisResults.isSome = true ↔
        (History.run beforeResults).resultsSinceReset = true) ∧
    (uiRun editAfterResults).app.analysisResults.isSome = true ∧
    (History.run editAfterResults).resultsSinceChange = false ∧
    ¬ ((uiRun editAfterResults).app.analysisResults.isSome = true ↔
        (History.run editAfterResults).resultsSinceChange = true) ∧
    (uiRun editAfterResults).app.jobData =
      some { jobRole := "Senior Engineer", companyName := "Initech", jobDescription := "" } ∧
    (uiRun editAfterResults).app.analysisResults =
      some { resumeAnalysis := JsVal.obj [("analysis_of", JsVal.str "text of A")],
             atsScore := JsVal.obj [("ats_of", JsVal.str "text of A")],
             companyResearch := JsVal.obj [("research_of", JsVal.str "Acme")],
             recommendations :=
               JsVal.obj [("recommended_for", JsVal.str "Senior Engineer")] } :=
  ⟨rfl, rfl, rfl, rfl, fun h => absurd (h.mp rfl) (by decide),
    fun h => absurd (h.mp rfl) (by decide), rfl, rfl,
    fun h => absurd (h.mp rfl) (by decide), rfl, rfl⟩

end Wizard
